import Mathlib

/-!
Verification of the Divina Commedia PDF-to-JSON segmentation pipeline.

Lines of text are modelled as `List Char`.  The regular expressions of the
source are modelled by small deterministic matchers: every pattern of the
source anchors at the start of the line, consists of case-insensitive (or, for
the canto heading, case-sensitive) literals, whitespace classes, one digit
class and a trailing wildcard, and none of those patterns needs backtracking,
so a left-to-right greedy matcher has exactly the regex semantics.
-/

set_option maxHeartbeats 1600000
set_option maxRecDepth 4000

namespace Divina

/-- Python whitespace (`\s`, `str.strip`): ASCII blanks plus the no-break space. -/
def isPySpace (c : Char) : Bool :=
  c == ' ' || c == '\t' || c == '\n' || c == '\r' ||
  c.toNat == 11 || c.toNat == 12 || c.toNat == 160

/-- ASCII decimal digit (`\d` on the inputs this pipeline sees). -/
def isAsciiDigit (c : Char) : Bool :=
  48 ≤ c.toNat && c.toNat ≤ 57

/-- Python `str.lower` restricted to ASCII and Latin-1 letters. -/
def pyToLower (c : Char) : Char :=
  if 65 ≤ c.toNat && c.toNat ≤ 90 then Char.ofNat (c.toNat + 32)
  else if 192 ≤ c.toNat && c.toNat ≤ 222 && c.toNat != 215 then Char.ofNat (c.toNat + 32)
  else c

/-- Case-insensitive character comparison, as `re.IGNORECASE` does it. -/
def ciEq (a b : Char) : Bool := pyToLower a == pyToLower b

/-- Drop leading whitespace (the `\s*` at the start of every pattern). -/
def dropWS (s : List Char) : List Char := s.dropWhile isPySpace

/-- The whole string is whitespace (a trailing `\s*$`). -/
def allWS (s : List Char) : Bool := s.all isPySpace

/-- Python `str.strip`. -/
def pyStrip (s : List Char) : List Char :=
  ((s.dropWhile isPySpace).reverse.dropWhile isPySpace).reverse

/-- Consume a case-insensitive literal, returning the rest of the input. -/
def stripPrefixCI : List Char → List Char → Option (List Char)
  | [], s => some s
  | _ :: _, [] => none
  | p :: ps, c :: cs => if ciEq p c then stripPrefixCI ps cs else none

/-- Consume a case-sensitive literal, returning the rest of the input. -/
def stripPrefixCS : List Char → List Char → Option (List Char)
  | [], s => some s
  | _ :: _, [] => none
  | p :: ps, c :: cs => if p == c then stripPrefixCS ps cs else none

/-- One element of a source regex: literal, whitespace, digit run or wildcard. -/
inductive Tok where
  | litCI (w : List Char)
  | litCS (w : List Char)
  | chOf (cs : List Char)
  | ws1
  | ws0
  | digits
  | rest
deriving DecidableEq

/-- Run one regex element against the input, returning the remaining input. -/
def runTok : Tok → List Char → Option (List Char)
  | .litCI w, s => stripPrefixCI w s
  | .litCS w, s => stripPrefixCS w s
  | .chOf set, s =>
    match s with
    | c :: cs => if set.any (fun t => ciEq t c) then some cs else none
    | [] => none
  | .ws1, s =>
    match s with
    | c :: cs => if isPySpace c then some (cs.dropWhile isPySpace) else none
    | [] => none
  | .ws0, s => some (s.dropWhile isPySpace)
  | .digits, s =>
    match s with
    | c :: cs => if isAsciiDigit c then some (cs.dropWhile isAsciiDigit) else none
    | [] => none
  | .rest, _ => some []

/-- Run a whole pattern; the final `$` requires the rest to be empty. -/
def runToks : List Tok → List Char → Option (List Char)
  | [], s => some s
  | t :: ts, s => (runTok t s).bind (runToks ts)

/-- Model of `re.match(pattern, line)` for the anchored patterns of the source. -/
def matchToks (ts : List Tok) (line : List Char) : Bool :=
  match runToks ts line with
  | some r => r.isEmpty
  | none => false

/- Literal fragments of the source's patterns. -/
def w_la : List Char := "la".data
def w_divina : List Char := "divina".data
def w_commedia : List Char := "commedia".data
def w_dante : List Char := "dante".data
def w_alighieri : List Char := "alighieri".data
def w_propriet : List Char := "propriet".data
def w_aa : List Char := ['a', 'à']
def w_letteraria : List Char := "letteraria".data
def w_milano : List Char := "milano".data
def w_dot : List Char := ['.']
def w_ndash : List Char := [Char.ofNat 8211]
def w_tip : List Char := "tip".data
def w_treves : List Char := "treves".data
def w_prefazione : List Char := "prefazione".data
def w_indice : List Char := "indice".data
def w_liber : List Char := "liber".data
def w_raffaello : List Char := "raffaello".data
def w_michelangelo : List Char := "michelangelo".data
def w_luca : List Char := "luca".data
def w_signorelli : List Char := "signorelli".data
def w_disegno : List Char := "disegno".data
def w_di : List Char := "di".data
def w_miniatura : List Char := "miniatura".data
def w_del : List Char := "del".data
def w_pagina : List Char := "pagina".data
def w_inferno : List Char := "inferno".data
def w_purgatorio : List Char := "purgatorio".data
def w_paradiso : List Char := "paradiso".data
def w_CANTO : List Char := "CANTO".data

/-- The `HEADER_PATTERNS` of `divina_full_pipeline.py`. -/
def HEADER_PATTERNS : List (List Tok) :=
  [ [.ws0, .litCI w_la, .ws1, .litCI w_divina, .ws1, .litCI w_commedia, .ws0]
  , [.ws0, .litCI w_dante, .ws1, .litCI w_alighieri, .ws0]
  , [.ws0, .litCI w_propriet, .chOf w_aa, .ws1, .litCI w_letteraria, .rest]
  , [.ws0, .litCI w_milano, .litCS w_dot, .ws0, .litCS w_ndash, .ws0,
     .litCI w_tip, .litCS w_dot, .ws0, .litCI w_treves, .litCS w_dot, .ws0]
  , [.ws0, .litCI w_prefazione, .ws0]
  , [.ws0, .litCI w_indice, .rest]
  , [.ws0, .litCI w_liber, .ws1, .litCI w_liber, .ws0] ]

/-- The `FOOTER_PATTERNS`: a bare page number. -/
def FOOTER_PATTERNS : List (List Tok) :=
  [ [.ws0, .digits, .ws0] ]

/-- The `ILLUSTRATION_PATTERNS`. -/
def ILLUSTRATION_PATTERNS : List (List Tok) :=
  [ [.ws0, .litCI w_raffaello, .litCS w_dot, .rest]
  , [.ws0, .litCI w_michelangelo, .litCS w_dot, .rest]
  , [.ws0, .litCI w_luca, .ws1, .litCI w_signorelli, .litCS w_dot, .rest]
  , [.ws0, .litCI w_disegno, .ws1, .litCI w_di, .ws1, .rest]
  , [.ws0, .litCI w_miniatura, .ws1, .litCI w_del, .ws1, .rest]
  , [.ws0, .litCI w_pagina, .ws1, .litCI w_del, .ws1, .litCI w_dante, .rest] ]

/-- Model of `looks_like_noise`: any header, footer or illustration pattern matches. -/
def looks_like_noise (line : List Char) : Bool :=
  (HEADER_PATTERNS ++ FOOTER_PATTERNS ++ ILLUSTRATION_PATTERNS).any
    (fun p => matchToks p line)

def titleInferno : List Char := "Inferno".data
def titlePurgatorio : List Char := "Purgatorio".data
def titleParadiso : List Char := "Paradiso".data

/-- Model of `CANTICA_HEADER_RE` (`^\s*(INFERNO|PURGATORIO|PARADISO)\s*$`, ignore-case),
fused with the `CANTICHE_TITLES` lookup of the match: returns the canonical
title when the line is a cantica heading. -/
def cantica_header_match (line : List Char) : Option (List Char) :=
  match stripPrefixCI w_inferno (dropWS line) with
  | some r => if allWS r then some titleInferno else none
  | none =>
  match stripPrefixCI w_purgatorio (dropWS line) with
  | some r => if allWS r then some titlePurgatorio else none
  | none =>
  match stripPrefixCI w_paradiso (dropWS line) with
  | some r => if allWS r then some titleParadiso else none
  | none => none

/-- One-or-two uppercase-word class `[A-ZÀÈÉÌÒÙ]`. -/
def isCantoWordChar (c : Char) : Bool :=
  (65 ≤ c.toNat && c.toNat ≤ 90) ||
  c == 'À' || c == 'È' || c == 'É' || c == 'Ì' || c == 'Ò' || c == 'Ù'

/-- Model of `CANTO_HEADER_RE` (`^\s*CANTO\s+[A-ZÀÈÉÌÒÙ]+(\s+[A-ZÀÈÉÌÒÙ]+)?\s*$`,
case-sensitive). -/
def canto_header_match (line : List Char) : Bool :=
  match stripPrefixCS w_CANTO (dropWS line) with
  | none => false
  | some r2 =>
    match r2 with
    | [] => false
    | c :: cs =>
      if isPySpace c then
        let r3 := cs.dropWhile isPySpace
        let w1 := r3.takeWhile isCantoWordChar
        let r4 := r3.dropWhile isCantoWordChar
        if w1.isEmpty then false
        else if allWS r4 then true
        else
          match r4 with
          | [] => false
          | d :: ds =>
            if isPySpace d then
              let r5 := ds.dropWhile isPySpace
              let w2 := r5.takeWhile isCantoWordChar
              let r6 := r5.dropWhile isCantoWordChar
              !w2.isEmpty && allWS r6
            else false
      else false

/-- Model of `clean_line`: remove soft hyphens (U+00AD) and strip; the source's second
`replace` maps the smart apostrophe to itself and is the identity. -/
def clean_line (line : List Char) : List Char :=
  pyStrip (line.filter (fun c => !(c.toNat == 173)))

/-- Character class of `is_probable_verse`'s short-heading filter
(`^[A-Z\s\.\-]+$`, case-sensitive). -/
def isUpHeadChar (c : Char) : Bool :=
  (65 ≤ c.toNat && c.toNat ≤ 90) || isPySpace c || c == '.' || c == '-'

/-- Split into maximal runs of characters satisfying `p` (used for
`str.split()` and for the letter-token scan of `last_word`). -/
def runsAux (p : Char → Bool) : List Char → List Char → List (List Char)
  | [], acc => if acc.isEmpty then [] else [acc.reverse]
  | c :: cs, acc =>
    if p c then runsAux p cs (c :: acc)
    else if acc.isEmpty then runsAux p cs []
    else acc.reverse :: runsAux p cs []

/-- Python `str.split()`: whitespace-separated words. -/
def pySplit (s : List Char) : List (List Char) :=
  runsAux (fun c => !isPySpace c) s []

/-- Python word character (`\w`): ASCII alphanumerics, underscore and the
Latin letters appearing in this text. -/
def pyIsWordChar (c : Char) : Bool :=
  (48 ≤ c.toNat && c.toNat ≤ 57) || (65 ≤ c.toNat && c.toNat ≤ 90) ||
  (97 ≤ c.toNat && c.toNat ≤ 122) || c == '_' ||
  (192 ≤ c.toNat && c.toNat ≤ 255 && c.toNat != 215 && c.toNat != 247) ||
  (256 ≤ c.toNat && c.toNat ≤ 383)

/-- Model of `len(re.sub(..))` in the verse filter: the number of word characters. -/
def wordCharCount (s : List Char) : Nat := (s.filter pyIsWordChar).length

/-- Model of `is_probable_verse` of `divina_full_pipeline.py`, with the source's
nested early-return structure. -/
def is_probable_verse (line : List Char) : Bool :=
  if line.isEmpty then false
  else if looks_like_noise line then false
  else if (!line.isEmpty && line.all isUpHeadChar) && (pySplit line).length ≤ 4
          && !(canto_header_match line) && !(cantica_header_match line).isSome then false
  else if canto_header_match line || (cantica_header_match line).isSome then false
  else if wordCharCount line < 2 then false
  else true

/-- Letter class of `last_word`'s token regex
(`[A-Za-zÀ-ÖØ-öø-ÿ’']+`). -/
def isNameLetter (c : Char) : Bool :=
  (65 ≤ c.toNat && c.toNat ≤ 90) || (97 ≤ c.toNat && c.toNat ≤ 122) ||
  (192 ≤ c.toNat && c.toNat ≤ 214) || (216 ≤ c.toNat && c.toNat ≤ 246) ||
  (248 ≤ c.toNat && c.toNat ≤ 255) || c.toNat == 8217 || c.toNat == 39

/-- Model of `last_word`: last letter-token of the text, lowercased; empty if none. -/
def last_word (text : List Char) : List Char :=
  (((runsAux isNameLetter text []).getLast?).getD []).map pyToLower

/-- Model of `short_cantica`; `none` models the `ValueError` raised on an
unrecognized cantica name. -/
def short_cantica (cantica : List Char) : Option (List Char) :=
  let c := (pyStrip cantica).map pyToLower
  if ("inf".data).isPrefixOf c then some ("inf".data)
  else if ("pur".data).isPrefixOf c then some ("purg".data)
  else if ("par".data).isPrefixOf c then some ("par".data)
  else none

/-- Decimal digit character. -/
def digitChar (d : Nat) : Char := Char.ofNat (48 + d)

/-- Big-endian decimal digits of a positive number; the first argument is
fuel (any fuel above the number itself is enough). -/
def digitsAux : Nat → Nat → List Char
  | 0, _ => []
  | _ + 1, 0 => []
  | f + 1, n + 1 => digitsAux f ((n + 1) / 10) ++ [digitChar ((n + 1) % 10)]

/-- Python `str(n)` for a natural number. -/
def natRepr (n : Nat) : List Char :=
  if n == 0 then ['0'] else digitsAux (n + 1) n

/-- Python `f"{n:0wd}"`: decimal, left-padded with zeros to width `w`. -/
def pyFormat (w n : Nat) : List Char :=
  List.replicate (w - (natRepr n).length) '0' ++ natRepr n

/-- Model of `verse_urn`: `{short}.{canto:02d}.{n:03d}`; `none` when `short_cantica`
raises. -/
def verse_urn (cantica : List Char) (canto n : Nat) : Option (List Char) :=
  (short_cantica cantica).map
    (fun sc => sc ++ '.' :: pyFormat 2 canto ++ '.' :: pyFormat 3 n)

/-- Entity escaping of `ssml_for_verso` (`&`, then `<`, then `>`). -/
def escText (s : List Char) : List Char :=
  ((s.flatMap (fun c => if c == '&' then ("&amp;".data) else [c])).flatMap
      (fun c => if c == '<' then ("&lt;".data) else [c])).flatMap
    (fun c => if c == '>' then ("&gt;".data) else [c])

/-- Model of `ssml_for_verso`: escaped text wrapped in a single `<s>` utterance. -/
def ssml_for_verso (text : List Char) : List Char :=
  "<s>".data ++ escText text ++ "</s>".data

def br220 : List Char :=
  "<break time=".data ++ Char.ofNat 39 :: "220ms".data ++ Char.ofNat 39 :: "/>".data
def br120 : List Char :=
  "<break time=".data ++ Char.ofNat 39 :: "120ms".data ++ Char.ofNat 39 :: "/>".data

/-- Model of `ssml_block`: per verse (1-based enumeration) the raw text in `<s>` tags
followed by a 220ms pause after every third verse of the block, 120ms
otherwise, all wrapped in one `<p>`.  Note the source interpolates the raw
text here, not the escaped form. -/
def ssml_block (texts : List (List Char)) : List Char :=
  "<p>".data ++
    ((List.enumFrom 1 texts).map
      (fun it => ("<s>".data ++ it.2 ++ "</s>".data) ++
        (if it.1 % 3 == 0 then br220 else br120))).flatten ++
    "</p>".data

/-- A verse record, as built by `CantoBuffer.add_verse`. -/
structure Verso where
  urn : List Char
  number : Nat
  text_original : List Char
  last_word : List Char
  rhyme_letter : Char
  ssml : List Char
deriving DecidableEq

/-- A terzina record of `group_terzine`. -/
structure Terzina where
  urn : List Char
  start_verso : Nat
  end_verso : Nat
  rhyme_scheme : List Char
  versi : List (List Char)
deriving DecidableEq

/-- A recitation-block record of `make_blocks`. -/
structure Block where
  urn : List Char
  start_verso : Nat
  end_verso : Nat
  versi : List (List Char)
  ssml : List Char
deriving DecidableEq

def defaultVerso : Verso :=
  { urn := [], number := 0, text_original := [], last_word := [],
    rhyme_letter := 'a', ssml := [] }

/-- The record built for one full chunk of 3 verses
(`chunk[0]['urn'][:-3]` is `take (length - 3)`). -/
def mkTerzina (a b c : Verso) : Terzina :=
  { urn := a.urn.take (a.urn.length - 3) ++
      pyFormat 3 a.number ++ '-' :: pyFormat 3 c.number
  , start_verso := a.number
  , end_verso := c.number
  , rhyme_scheme := "aba".data
  , versi := [a.urn, b.urn, c.urn] }

/-- Model of `group_terzine`: chunks of 3 from index 0, stopping at (and discarding)
a short final chunk. -/
def group_terzine : List Verso → List Terzina
  | a :: b :: c :: rest => mkTerzina a b c :: group_terzine rest
  | _ => []

/-- The block record built from one window (`chunk` is nonempty whenever the
source builds it). -/
def mkBlock (chunk : List Verso) : Block :=
  let v0 := chunk.headD defaultVerso
  let vl := chunk.getLastD defaultVerso
  { urn := v0.urn.take (v0.urn.length - 3) ++
      pyFormat 3 v0.number ++ '-' :: pyFormat 3 vl.number
  , start_verso := v0.number
  , end_verso := vl.number
  , versi := chunk.map Verso.urn
  , ssml := ssml_block (chunk.map Verso.text_original) }

/-- The `while i < n` loop of `make_blocks`.  The loop advances `i` by at
least 1 each round, so any fuel above `n` is enough; `make_blocks` passes
`n + 1`. -/
def make_blocks_go (verses : List Verso) (size step : Nat) :
    Nat → Nat → List Block
  | 0, _ => []
  | fuel + 1, i =>
    if i < verses.length then
      let chunk := (verses.drop i).take size
      if chunk.isEmpty then []
      else
        mkBlock chunk ::
          (if verses.length ≤ i + size then []
           else make_blocks_go verses size step fuel (i + step))
    else []

/-- Model of `make_blocks` of `divina_full_pipeline.py`. -/
def make_blocks (verses : List Verso) (size overlap : Int) : List Block :=
  if size ≤ 0 then []
  else
    let step := (max 1 (size - overlap)).toNat
    make_blocks_go verses size.toNat step (verses.length + 1) 0

/-- Boolean lexicographic order on strings by code point (the order JSON
keys and identifier lists sort in). -/
def charLtB (a b : Char) : Bool := a.toNat < b.toNat

def lexLt : List Char → List Char → Bool
  | [], [] => false
  | [], _ :: _ => true
  | _ :: _, [] => false
  | a :: as, b :: bs => charLtB a b || (a == b && lexLt as bs)

/-- Python `s.rsplit('.', 1)[0]`: everything before the last dot, or the
whole string when there is no dot. -/
def rsplitDotHead (s : List Char) : List Char :=
  match (s.reverse).dropWhile (fun c => !(c == '.')) with
  | [] => s
  | _ :: rest => rest.reverse

namespace DP

/-!
The single-canto variant `divina_pipeline.py`.  Its `short_cantica`,
`create_urn`, `last_word` and `make_ssml_for_verso` are character-identical
to the full pipeline's and are shared above; the functions below differ
textually and are modelled separately.
-/

/-- In `divina_pipeline.py`, `group_terzine` builds the terzina urn is built with
`start_urn.rsplit('.', 1)[0]` instead of `urn[:-3]`. -/
def mkTerzina (a b c : Verso) : Terzina :=
  { urn := rsplitDotHead a.urn ++ '.' ::
      pyFormat 3 a.number ++ '-' :: pyFormat 3 c.number
  , start_verso := a.number
  , end_verso := c.number
  , rhyme_scheme := "aba".data
  , versi := [a.urn, b.urn, c.urn] }

def group_terzine : List Verso → List Terzina
  | a :: b :: c :: rest => mkTerzina a b c :: group_terzine rest
  | _ => []

/-- Model of `make_ssml_for_block` (same computation as the full pipeline's
`ssml_block`). -/
def make_ssml_for_block (texts : List (List Char)) : List Char :=
  "<p>".data ++
    ((List.enumFrom 1 texts).map
      (fun it => ("<s>".data ++ it.2 ++ "</s>".data) ++
        (if it.1 % 3 == 0 then br220 else br120))).flatten ++
    "</p>".data

def mkBlock (chunk : List Verso) : Block :=
  let v0 := chunk.headD defaultVerso
  let vl := chunk.getLastD defaultVerso
  { urn := rsplitDotHead v0.urn ++ '.' ::
      pyFormat 3 v0.number ++ '-' :: pyFormat 3 vl.number
  , start_verso := v0.number
  , end_verso := vl.number
  , versi := chunk.map Verso.urn
  , ssml := make_ssml_for_block (chunk.map Verso.text_original) }

def build_recitation_blocks_go (verses : List Verso) (size step : Nat) :
    Nat → Nat → List Block
  | 0, _ => []
  | fuel + 1, i =>
    if i < verses.length then
      let chunk := (verses.drop i).take size
      if chunk.isEmpty then []
      else
        mkBlock chunk ::
          (if verses.length ≤ i + size then []
           else build_recitation_blocks_go verses size step fuel (i + step))
    else []

/-- Model of `build_recitation_blocks` of `divina_pipeline.py`. -/
def build_recitation_blocks (verses : List Verso) (size overlap : Int) :
    List Block :=
  if size ≤ 0 then []
  else
    let step := (max 1 (size - overlap)).toNat
    build_recitation_blocks_go verses size.toNat step (verses.length + 1) 0

end DP

/-- Indexing `"aba"[(n - 1) % 3]`. -/
def rhymeLetterAt : Nat → Char
  | 0 => 'a'
  | 1 => 'b'
  | _ => 'a'

/-- The per-canto verse buffer of the full pipeline. -/
structure CantoBuffer where
  cantica : List Char
  canto_num : Nat
  verses : List Verso
deriving DecidableEq

/-- Model of `CantoBuffer.add_verse`; `none` when `verse_urn` raises. -/
def CantoBuffer.add_verse (buf : CantoBuffer) (text : List Char) :
    Option CantoBuffer :=
  let n := buf.verses.length + 1
  (verse_urn buf.cantica buf.canto_num n).map (fun u =>
    { buf with verses := buf.verses ++
        [{ urn := u
         , number := n
         , text_original := text
         , last_word := last_word text
         , rhyme_letter := rhymeLetterAt ((n - 1) % 3)
         , ssml := ssml_for_verso text }] })

structure RunCfg where
  block_size : Int
  block_overlap : Int
deriving DecidableEq

/-- The per-canto JSON document written by `close_canto`
(`CantoBuffer.to_json`); the `counts` object is inlined as three fields. -/
structure CantoData where
  cantica : List Char
  canto : Nat
  page_start : Int
  page_end : Int
  counts_versi : Nat
  counts_terzine : Nat
  counts_blocks : Nat
  versi : List Verso
  terzine : List Terzina
  recitation_blocks : List Block
deriving DecidableEq

/-- Model of `CantoBuffer.to_json`. -/
def CantoBuffer.to_json (buf : CantoBuffer) (page_start page_end : Int)
    (cfg : RunCfg) : CantoData :=
  let terzine := group_terzine buf.verses
  let blocks := make_blocks buf.verses cfg.block_size cfg.block_overlap
  { cantica := buf.cantica
  , canto := buf.canto_num
  , page_start := page_start
  , page_end := page_end
  , counts_versi := buf.verses.length
  , counts_terzine := terzine.length
  , counts_blocks := blocks.length
  , versi := buf.verses
  , terzine := terzine
  , recitation_blocks := blocks }

/-- One entry of the manifest canti list. -/
structure ManEntry where
  cantica : List Char
  canto : Option Nat
  file : List Char
  counts_versi : Nat
  counts_terzine : Nat
  counts_blocks : Nat
deriving DecidableEq

/-- The mutable state of `run_pipeline`'s scan; `last_canto` models the
`manifest["__last_canto_{cantica}"]` bookkeeping keys, `outputs` the
per-canto JSON files in writing order, `canti` the manifest entries. -/
structure PipeState where
  current_cantica : Option (List Char)
  current_canto_num : Option Nat
  canto_buf : Option CantoBuffer
  canto_start_page : Option Nat
  last_canto : List (List Char × Nat)
  outputs : List (List Char × CantoData)
  canti : List ManEntry
deriving DecidableEq

def pipeInit : PipeState :=
  { current_cantica := none, current_canto_num := none, canto_buf := none,
    canto_start_page := none, last_canto := [], outputs := [], canti := [] }

/-- Dictionary lookup on the modelled manifest keys. -/
def alookup : List (List Char × Nat) → List Char → Option Nat
  | [], _ => none
  | e :: m, k => if e.1 = k then some e.2 else alookup m k

/-- Dictionary update on the modelled manifest keys. -/
def aupdate : List (List Char × Nat) → List Char → Nat → List (List Char × Nat)
  | [], k, v => [(k, v)]
  | e :: m, k, v => if e.1 = k then (k, v) :: m else e :: aupdate m k v

/-- Model of `close_canto`: no-op without an open buffer; otherwise emit the canto
document and a manifest entry and clear the canto state.  `none` models the
exception from an unrecognized cantica name (unreachable from
`run_pipeline`, which only stores canonical titles). -/
def close_canto (cfg : RunCfg) (end_page_idx : Int) (st : PipeState) :
    Option PipeState :=
  match st.canto_buf with
  | none => some st
  | some buf =>
    match st.current_cantica with
    | none => none
    | some cc =>
      match short_cantica cc with
      | none => none
      | some sc =>
        let data := buf.to_json (((st.canto_start_page.getD 0 : Int)) + 1)
          (end_page_idx + 1) cfg
        let fname := sc ++ '_' :: pyFormat 2 buf.canto_num ++ ".json".data
        some { st with
          outputs := st.outputs ++ [(fname, data)]
          canti := st.canti ++
            [{ cantica := cc
             , canto := st.current_canto_num
             , file := fname
             , counts_versi := data.counts_versi
             , counts_terzine := data.counts_terzine
             , counts_blocks := data.counts_blocks }]
          canto_buf := none
          current_canto_num := none
          canto_start_page := none }

/-- The body of `run_pipeline`'s line loop. -/
def stepLine (cfg : RunCfg) (page_idx : Nat) (st : PipeState)
    (line : List Char) : Option PipeState :=
  match cantica_header_match line with
  | some title =>
    (close_canto cfg ((page_idx : Int) - 1) st).map
      (fun st1 => { st1 with current_cantica := some title })
  | none =>
    if canto_header_match line then
      match st.current_cantica with
      | none => some st
      | some cc =>
        (close_canto cfg ((page_idx : Int) - 1) st).map (fun st1 =>
          let next_num :=
            match alookup st1.last_canto cc with
            | none => 1
            | some k => k + 1
          { st1 with
            last_canto := aupdate st1.last_canto cc next_num
            current_canto_num := some next_num
            canto_buf := some ⟨cc, next_num, []⟩
            canto_start_page := some page_idx })
    else
      match st.canto_buf with
      | some buf =>
        if is_probable_verse line then
          (buf.add_verse line).map (fun b => { st with canto_buf := some b })
        else some st
      | none => some st

/-- Fold `stepLine` over the lines of one page. -/
def stepPage (cfg : RunCfg) (page_idx : Nat) :
    PipeState → List (List Char) → Option PipeState
  | st, [] => some st
  | st, l :: ls =>
    match stepLine cfg page_idx st l with
    | none => none
    | some st' => stepPage cfg page_idx st' ls

/-- Fold over the pages, keeping the 0-based page index. -/
def stepPages (cfg : RunCfg) :
    Nat → PipeState → List (List (List Char)) → Option PipeState
  | _, st, [] => some st
  | pidx, st, pg :: rest =>
    match stepPage cfg pidx st pg with
    | none => none
    | some st' => stepPages cfg (pidx + 1) st' rest

/-- Model of `run_pipeline` on already-extracted page lines: scan all lines, then
close any still-open canto with the last page index. -/
def run_pipeline (cfg : RunCfg) (pages_lines : List (List (List Char))) :
    Option PipeState :=
  match stepPages cfg 0 pipeInit pages_lines with
  | none => none
  | some st => close_canto cfg ((pages_lines.length : Int) - 1) st

/-- The line classification implicit in `run_pipeline`'s branch order:
cantica heading, then canto heading, then probable verse; remaining lines
are dropped, split here into noise and other for comparison with the
specification. -/
inductive LineKind where
  | partMarker (title : List Char)
  | cantoMarker
  | verse
  | noise
  | other
deriving DecidableEq

def classify (line : List Char) : LineKind :=
  match cantica_header_match line with
  | some t => .partMarker t
  | none =>
    if canto_header_match line then .cantoMarker
    else if is_probable_verse line then .verse
    else if looks_like_noise line then .noise
    else .other

/-- The classification in the specification's precedence order
Noise → PartMarker → CantoMarker → Verse. -/
def classifySpecOrder (line : List Char) : LineKind :=
  if looks_like_noise line then .noise
  else
    match cantica_header_match line with
    | some t => .partMarker t
    | none =>
      if canto_header_match line then .cantoMarker
      else if is_probable_verse line then .verse
      else .other

/-- The claimed (escaped) block markup, per verse: entity-escaped text in an
`<s>` tag, then the pause; stated by the specification, compared with the
source's `ssml_block`. -/
def ssmlBlockEsc (texts : List (List Char)) : List Char :=
  "<p>".data ++
    ((List.enumFrom 1 texts).map
      (fun it => ("<s>".data ++ escText it.2 ++ "</s>".data) ++
        (if it.1 % 3 == 0 then br220 else br120))).flatten ++
    "</p>".data

/-- Recursive presentation of the block body with a 1-based position
counter, used to state the amended block-markup claim. -/
def ssmlBodyRaw : Nat → List (List Char) → List Char
  | _, [] => []
  | pos, t :: ts =>
    ("<s>".data ++ t ++ "</s>".data) ++
      (if pos % 3 == 0 then br220 else br120) ++ ssmlBodyRaw (pos + 1) ts

/-! Sample data used by witnesses. -/

def w_canto_low : List Char := "canto".data

def line47 : List Char := "47".data

def cfg0 : RunCfg := { block_size := 12, block_overlap := 0 }

/-- A canonical Inferno canto-1 verse record with verse number `k`. -/
def sv (k : Nat) : Verso :=
  { urn := "inf.01.".data ++ pyFormat 3 k
  , number := k
  , text_original := "testo del verso".data
  , last_word := "verso".data
  , rhyme_letter := rhymeLetterAt ((k - 1) % 3)
  , ssml := [] }

def sv5 : List Verso := [sv 1, sv 2, sv 3, sv 4, sv 5]

/-- A verse record whose urn does not have the canonical dotted shape. -/
def vx (k : Nat) : Verso := { defaultVerso with urn := ['x'], number := k }

/-- A one-page input: a cantica heading and a canto heading, no verses. -/
def pagesC : List (List (List Char)) :=
  [["INFERNO".data, "CANTO PRIMO".data]]

def dataC : CantoData :=
  { cantica := titleInferno, canto := 1, page_start := 1, page_end := 1
  , counts_versi := 0, counts_terzine := 0, counts_blocks := 0
  , versi := [], terzine := [], recitation_blocks := [] }

def fnameC : List Char := "inf_01.json".data

/-- The final state of running the pipeline on `pagesC`. -/
def stC : PipeState :=
  { current_cantica := some titleInferno
  , current_canto_num := none
  , canto_buf := none
  , canto_start_page := none
  , last_canto := [(titleInferno, 1)]
  , outputs := [(fnameC, dataC)]
  , canti := [{ cantica := titleInferno, canto := some 1, file := fnameC
              , counts_versi := 0, counts_terzine := 0, counts_blocks := 0 }] }

/-- The canto documents of a given part written so far, in writing order. -/
def closedOf (st : PipeState) (p : List Char) : List CantoData :=
  (st.outputs.map Prod.snd).filter (fun d => d.cantica == p)

/-- How many cantos of part `p` have been opened: the closed ones plus the
currently open buffer when it belongs to `p`. -/
def openedCount (st : PipeState) (p : List Char) : Nat :=
  (closedOf st p).length +
    (match st.canto_buf with
     | some b => if b.cantica == p then 1 else 0
     | none => 0)

/-- The numbering invariant of the scan: the per-part bookkeeping key holds
the opened count, closed cantos of each part are numbered 1, 2, … in
writing order, the open buffer carries the next number and contiguously
numbered verses, and every written canto document has contiguously numbered
verses. -/
def Inv (st : PipeState) : Prop :=
  (∀ p, alookup st.last_canto p =
    (if openedCount st p = 0 then none else some (openedCount st p))) ∧
  (∀ p, (closedOf st p).map CantoData.canto =
    List.range' 1 (closedOf st p).length) ∧
  (∀ b, st.canto_buf = some b →
    b.canto_num = openedCount st b.cantica ∧
    b.verses.map Verso.number = List.range' 1 b.verses.length) ∧
  (∀ o ∈ st.outputs, o.2.versi.map Verso.number =
    List.range' 1 o.2.versi.length)

/-- A state with an open, empty Inferno canto buffer. -/
def stB : PipeState :=
  { pipeInit with
    current_cantica := some titleInferno
    current_canto_num := some 1
    canto_buf := some ⟨titleInferno, 1, []⟩
    canto_start_page := some 0
    last_canto := [(titleInferno, 1)] }

/-- A verse text containing an ampersand, for the escaping counterexample. -/
def textAmp : List Char := "a&b".data

/-- The identifier layout of `verse_urn` for a given short code. -/
def urnOf (sc : List Char) (k n : Nat) : List Char :=
  sc ++ '.' :: pyFormat 2 k ++ '.' :: pyFormat 3 n

/-! ## Lemmas about the matchers -/

theorem stripPrefixCI_low :
    ∀ (p s r : List Char), stripPrefixCI p s = some r →
      s.map pyToLower = p.map pyToLower ++ r.map pyToLower := by
  intro p
  induction p with
  | nil =>
    intro s r h
    simp only [stripPrefixCI, Option.some.injEq] at h
    subst h
    simp
  | cons a ps ih =>
    intro s r h
    cases s with
    | nil => simp [stripPrefixCI] at h
    | cons c cs =>
      unfold stripPrefixCI at h
      split at h
      · next hci =>
        have hac : pyToLower a = pyToLower c := by
          simpa [ciEq] using hci
        simp only [List.map_cons, List.cons_append, ih cs r h, hac]
      · exact absurd h (by simp)

theorem stripPrefixCS_eq :
    ∀ (p s r : List Char), stripPrefixCS p s = some r → s = p ++ r := by
  intro p
  induction p with
  | nil =>
    intro s r h
    simp only [stripPrefixCS, Option.some.injEq] at h
    subst h
    simp
  | cons a ps ih =>
    intro s r h
    cases s with
    | nil => simp [stripPrefixCS] at h
    | cons c cs =>
      unfold stripPrefixCS at h
      split at h
      · next hac =>
        have : a = c := by simpa using hac
        simp only [List.cons_append, ih cs r h, this]
      · exact absurd h (by simp)

theorem runToks_ws0_cons (ts : List Tok) (line : List Char) :
    runToks (.ws0 :: ts) line = runToks ts (dropWS line) := rfl

/-- A pattern that opens with `\s*LITERAL` only matches lines whose trimmed,
lowercased form starts with that literal. -/
theorem matchToks_litCI_pre (w : List Char) (ts : List Tok) (line : List Char)
    (h : matchToks (.ws0 :: .litCI w :: ts) line = true) :
    ∃ X, (dropWS line).map pyToLower = w.map pyToLower ++ X := by
  have hrun : ∃ r, stripPrefixCI w (dropWS line) = some r := by
    cases hs : stripPrefixCI w (dropWS line) with
    | some r => exact ⟨r, rfl⟩
    | none =>
      exfalso
      unfold matchToks at h
      rw [runToks_ws0_cons] at h
      simp [runToks, runTok, hs] at h
  obtain ⟨r, hr⟩ := hrun
  exact ⟨r.map pyToLower, stripPrefixCI_low w _ r hr⟩

theorem pyToLower_digit {c : Char} (h : isAsciiDigit c = true) :
    pyToLower c = c := by
  simp only [isAsciiDigit, Bool.and_eq_true, decide_eq_true_eq] at h
  unfold pyToLower
  split
  · next hcond =>
    simp only [Bool.and_eq_true, decide_eq_true_eq] at hcond
    omega
  · split
    · next hcond =>
      simp only [Bool.and_eq_true, decide_eq_true_eq, bne_iff_ne] at hcond
      omega
    · rfl

/-- The bare-page-number pattern only matches lines whose trimmed, lowercased
form starts with a digit. -/
theorem matchToks_digits_pre (ts : List Tok) (line : List Char)
    (h : matchToks (.ws0 :: .digits :: ts) line = true) :
    ∃ d X, (dropWS line).map pyToLower = d :: X ∧ isAsciiDigit d = true := by
  unfold matchToks at h
  rw [runToks_ws0_cons] at h
  cases hdl : dropWS line with
  | nil => rw [hdl] at h; simp [runToks, runTok] at h
  | cons c cs =>
    rw [hdl] at h
    by_cases hd : isAsciiDigit c = true
    · refine ⟨c, cs.map pyToLower, ?_, hd⟩
      simp [pyToLower_digit hd]
    · exfalso
      have hd' : isAsciiDigit c = false := by
        revert hd
        cases isAsciiDigit c <;> simp
      simp [runToks, runTok, hd'] at h

/-- A cantica heading's trimmed, lowercased form starts with one of the three
cantica names. -/
theorem cantica_pre (line t : List Char) (h : cantica_header_match line = some t) :
    (∃ X, (dropWS line).map pyToLower = w_inferno ++ X) ∨
    (∃ X, (dropWS line).map pyToLower = w_purgatorio ++ X) ∨
    (∃ X, (dropWS line).map pyToLower = w_paradiso ++ X) := by
  unfold cantica_header_match at h
  cases h1 : stripPrefixCI w_inferno (dropWS line) with
  | some r =>
    refine Or.inl ⟨r.map pyToLower, ?_⟩
    have := stripPrefixCI_low _ _ _ h1
    rwa [show w_inferno.map pyToLower = w_inferno from by decide] at this
  | none =>
    rw [h1] at h
    cases h2 : stripPrefixCI w_purgatorio (dropWS line) with
    | some r =>
      refine Or.inr (Or.inl ⟨r.map pyToLower, ?_⟩)
      have := stripPrefixCI_low _ _ _ h2
      rwa [show w_purgatorio.map pyToLower = w_purgatorio from by decide] at this
    | none =>
      rw [h2] at h
      cases h3 : stripPrefixCI w_paradiso (dropWS line) with
      | some r =>
        refine Or.inr (Or.inr ⟨r.map pyToLower, ?_⟩)
        have := stripPrefixCI_low _ _ _ h3
        rwa [show w_paradiso.map pyToLower = w_paradiso from by decide] at this
      | none => rw [h3] at h; exact absurd h (by simp)

/-- A canto heading's trimmed, lowercased form starts with `canto`. -/
theorem canto_pre (line : List Char) (h : canto_header_match line = true) :
    ∃ X, (dropWS line).map pyToLower = w_canto_low ++ X := by
  unfold canto_header_match at h
  cases h1 : stripPrefixCS w_CANTO (dropWS line) with
  | none => rw [h1] at h; exact absurd h (by simp)
  | some r =>
    refine ⟨r.map pyToLower, ?_⟩
    rw [stripPrefixCS_eq _ _ _ h1, List.map_append,
      show w_CANTO.map pyToLower = w_canto_low from by decide]

/-- Two literal prefixes of the same string must agree on any common initial
segment. -/
theorem clash {L X Y : List Char} (a b : List Char) (k : Nat)
    (ha : L = a ++ X) (hb : L = b ++ Y) (hka : k ≤ a.length)
    (hkb : k ≤ b.length) (hne : ¬ a.take k = b.take k) : False := by
  apply hne
  have h1 : L.take k = a.take k := by
    rw [ha]; exact List.take_append_of_le_length hka
  have h2 : L.take k = b.take k := by
    rw [hb]; exact List.take_append_of_le_length hkb
  rw [← h1, h2]

/-- A digit-initial string cannot start with an all-letter literal. -/
theorem digitClash {L X Y : List Char} {d : Char} (b : List Char)
    (ha : L = d :: X) (hb : L = b ++ Y) (hd : isAsciiDigit d = true)
    (hball : b.all (fun c => !isAsciiDigit c) = true) (hbne : b ≠ []) :
    False := by
  cases b with
  | nil => exact hbne rfl
  | cons e b' =>
    rw [ha] at hb
    injection hb with h1 _
    simp only [List.all_cons, Bool.and_eq_true] at hball
    obtain ⟨he, _⟩ := hball
    rw [← h1, hd] at he
    simp at he

/-- No line matching a noise pattern can have a trimmed, lowercased form
starting with a marker word. -/
theorem noise_marker_clash (line : List Char) (h : looks_like_noise line = true)
    (w : List Char)
    (hw : w = w_inferno ∨ w = w_purgatorio ∨ w = w_paradiso ∨ w = w_canto_low)
    (Y : List Char) (hm : (dropWS line).map pyToLower = w ++ Y) : False := by
  simp only [looks_like_noise, HEADER_PATTERNS, FOOTER_PATTERNS,
    ILLUSTRATION_PATTERNS, List.cons_append, List.nil_append, List.any_cons,
    List.any_nil, Bool.or_eq_true, Bool.or_false] at h
  rcases h with h|h|h|h|h|h|h|h|h|h|h|h|h|h
  case inr.inr.inr.inr.inr.inr.inr.inl =>
    -- footer: bare page number
    obtain ⟨d, X, hn, hd⟩ := matchToks_digits_pre _ _ h
    rcases hw with rfl | rfl | rfl | rfl <;>
      exact digitClash _ hn hm hd (by decide) (by decide)
  all_goals
    obtain ⟨X, hn⟩ := matchToks_litCI_pre _ _ _ h
    rcases hw with rfl | rfl | rfl | rfl <;>
      first
        | exact clash _ _ 3 hn hm (by decide) (by decide) (by decide)
        | exact clash _ _ 2 hn hm (by decide) (by decide) (by decide)

/-- A noisy line is never a cantica heading nor a canto heading. -/
theorem noise_not_marker (line : List Char) (h : looks_like_noise line = true) :
    cantica_header_match line = none ∧ canto_header_match line = false := by
  constructor
  · cases hc : cantica_header_match line with
    | none => rfl
    | some t =>
      exfalso
      rcases cantica_pre line t hc with ⟨Y, hm⟩ | ⟨Y, hm⟩ | ⟨Y, hm⟩
      · exact noise_marker_clash line h _ (Or.inl rfl) Y hm
      · exact noise_marker_clash line h _ (Or.inr (Or.inl rfl)) Y hm
      · exact noise_marker_clash line h _ (Or.inr (Or.inr (Or.inl rfl))) Y hm
  · cases hk : canto_header_match line with
    | false => rfl
    | true =>
      exfalso
      obtain ⟨Y, hm⟩ := canto_pre line hk
      exact noise_marker_clash line h _ (Or.inr (Or.inr (Or.inr rfl))) Y hm

theorem noise_not_verse (line : List Char) (h : looks_like_noise line = true) :
    is_probable_verse line = false := by
  unfold is_probable_verse
  cases hline : line.isEmpty <;> simp [hline, h]

/-- C3: Classification follows the fixed precedence
Noise → PartMarker → CantoMarker → Verse: the classification implicit in
`run_pipeline`'s branch order (which tests the markers first) coincides on
every line with the specification's noise-first precedence order, because no
line matches both a noise pattern and a marker pattern; in particular a line
matching a noise pattern and a marker pattern would be classified Noise and
trigger no part change, canto boundary, or verse. -/
theorem classify_eq_specOrder (line : List Char) :
    classify line = classifySpecOrder line := by
  by_cases hn : looks_like_noise line = true
  · obtain ⟨hc, hk⟩ := noise_not_marker line hn
    unfold classify classifySpecOrder
    rw [hc, hk, noise_not_verse line hn, hn]
    simp
  · have hn' : looks_like_noise line = false := by
      revert hn; cases looks_like_noise line <;> simp
    unfold classify classifySpecOrder
    rw [hn']
    simp only [Bool.false_eq_true, if_false]

/-- The early-return cascade of `is_probable_verse`, flattened to one
conjunction: non-empty, no noise pattern, not a cantica or canto heading,
not a short all-caps heading-like line, and at least two word characters. -/
theorem is_probable_verse_iff (line : List Char) :
    is_probable_verse line =
      (!line.isEmpty && !looks_like_noise line &&
       !(cantica_header_match line).isSome && !canto_header_match line &&
       !(line.all isUpHeadChar && decide ((pySplit line).length ≤ 4)) &&
       decide (2 ≤ wordCharCount line)) := by
  unfold is_probable_verse
  cases hE : line.isEmpty <;>
    cases hN : looks_like_noise line <;>
      cases hK : canto_header_match line <;>
        cases hC : (cantica_header_match line).isSome <;>
          cases hU : line.all isUpHeadChar <;>
            by_cases h4 : (pySplit line).length ≤ 4 <;>
              by_cases hW : wordCharCount line < 2 <;>
                simp_all

/-- C9: A line is classified Verse iff, after stripping soft hyphens and
surrounding whitespace (`clean_line`, applied by `parse_pdf` before the
classification loop), it is non-empty, matches no noise pattern, is not a
part or canto marker, has at least 2 word (non-punctuation, non-space)
characters, and is not a short (at most 4 words) line made only of uppercase
ASCII letters, whitespace, periods and hyphens; and a lone bare-number line
`47` is classified Noise and, fed to the scan loop, changes no state (hence
contributes no verse, stanza, or block). -/
theorem verse_rule_and_noise47 :
    (∀ raw, classify (clean_line raw) = .verse ↔
      (!(clean_line raw).isEmpty && !looks_like_noise (clean_line raw) &&
       !(cantica_header_match (clean_line raw)).isSome &&
       !canto_header_match (clean_line raw) &&
       !((clean_line raw).all isUpHeadChar &&
         decide ((pySplit (clean_line raw)).length ≤ 4)) &&
       decide (2 ≤ wordCharCount (clean_line raw))) = true) ∧
    clean_line line47 = line47 ∧
    classify line47 = .noise ∧
    (∀ cfg pidx st, stepLine cfg pidx st line47 = some st) := by
  refine ⟨?_, by decide, by decide, ?_⟩
  · intro raw
    rw [← is_probable_verse_iff]
    unfold classify
    cases hc : cantica_header_match (clean_line raw) with
    | some t =>
      have hv : is_probable_verse (clean_line raw) = false := by
        unfold is_probable_verse
        cases hline : (clean_line raw).isEmpty <;> simp [hline, hc]
      simp [hv]
    | none =>
      cases hk : canto_header_match (clean_line raw) with
      | true =>
        have hv : is_probable_verse (clean_line raw) = false := by
          unfold is_probable_verse
          cases hline : (clean_line raw).isEmpty <;> simp [hline, hk, hc]
        simp [hv]
      | false =>
        cases hv : is_probable_verse (clean_line raw) <;>
          cases hn : looks_like_noise (clean_line raw) <;> simp [hv, hn]
  · intro cfg pidx st
    unfold stepLine
    rw [show cantica_header_match line47 = none from by decide,
      show canto_header_match line47 = false from by decide]
    cases hb : st.canto_buf <;>
      simp [show is_probable_verse line47 = false from by decide]

/-! ## C1: the stanza grouper -/

theorem group_terzine_length :
    ∀ verses : List Verso, (group_terzine verses).length = verses.length / 3
  | [] => by simp [group_terzine]
  | [_] => by simp [group_terzine]
  | [_, _] => by simp [group_terzine]
  | _ :: _ :: _ :: rest => by
    simp only [group_terzine, List.length_cons, group_terzine_length rest]
    omega

theorem group_terzine_flat :
    ∀ verses : List Verso,
      ((group_terzine verses).map Terzina.versi).flatten =
        (verses.map Verso.urn).take (3 * (verses.length / 3))
  | [] => by simp [group_terzine]
  | [_] => by simp [group_terzine]
  | [_, _] => by simp [group_terzine]
  | a :: b :: c :: rest => by
    have h3 : 3 * ((rest.length + 1 + 1 + 1) / 3) = 3 * (rest.length / 3) + 1 + 1 + 1 := by
      omega
    simp only [group_terzine, List.map_cons, List.flatten_cons,
      group_terzine_flat rest, List.length_cons, h3, List.take_succ_cons,
      mkTerzina]
    rfl

theorem group_terzine_get :
    ∀ (verses : List Verso) (k : Nat) (h : k < (group_terzine verses).length),
      ((group_terzine verses).get ⟨k, h⟩).versi =
        ((verses.drop (3 * k)).take 3).map Verso.urn
  | [], k, h => by simp [group_terzine] at h
  | [_], k, h => by simp [group_terzine] at h
  | [_, _], k, h => by simp [group_terzine] at h
  | a :: b :: c :: rest, 0, h => by
    simp [group_terzine, mkTerzina]
  | a :: b :: c :: rest, k + 1, h => by
    have hk : k < (group_terzine rest).length := by
      simpa [group_terzine] using h
    have ih := group_terzine_get rest k hk
    have h31 : 3 * (k + 1) = 3 * k + 1 + 1 + 1 := by omega
    simp only [group_terzine, List.get_cons_succ, h31, List.drop_succ_cons]
    exact ih

/-- C1: For a verse list of length n, `group_terzine` emits exactly
`n / 3` stanzas, the k-th being the consecutive non-overlapping verse
window `[3k, 3k+3)` in order from index 0, so the concatenation of all
stanza verse-identifier references equals the canto's urn sequence
truncated to the largest multiple of 3, and fewer than 3 verses yield no
stanza. -/
theorem group_terzine_claim (verses : List Verso) :
    (group_terzine verses).length = verses.length / 3 ∧
    ((group_terzine verses).map Terzina.versi).flatten =
      (verses.map Verso.urn).take (3 * (verses.length / 3)) ∧
    (verses.length < 3 → group_terzine verses = []) ∧
    (∀ k (h : k < (group_terzine verses).length),
      ((group_terzine verses).get ⟨k, h⟩).versi =
        ((verses.drop (3 * k)).take 3).map Verso.urn) := by
  refine ⟨group_terzine_length verses, group_terzine_flat verses, ?_,
    group_terzine_get verses⟩
  intro hlt
  have h0 : (group_terzine verses).length = 0 := by
    rw [group_terzine_length verses]
    omega
  exact List.length_eq_zero.mp h0

theorem group_terzine_claim_witness :
    group_terzine [sv 1, sv 2] = [] ∧
    ((group_terzine sv5).get ⟨0, by decide⟩).versi =
      ((sv5.drop (3 * 0)).take 3).map Verso.urn :=
  ⟨(group_terzine_claim [sv 1, sv 2]).2.2.1 (by decide),
   (group_terzine_claim sv5).2.2.2 0 (by decide)⟩

/-! ## C2: the recitation-block builder -/

theorem chunk_not_empty {verses : List Verso} {i b : Nat}
    (hi : i < verses.length) (hb : 1 ≤ b) :
    ((verses.drop i).take b).isEmpty = false := by
  have hlen : ((verses.drop i).take b).length = min b (verses.length - i) := by
    simp [List.length_take]
  cases hch : (verses.drop i).take b with
  | nil => rw [hch] at hlen; simp at hlen; omega
  | cons x xs => rfl

theorem make_blocks_go_succ (verses : List Verso) (b s fuel i : Nat)
    (hi : i < verses.length) (hb : 1 ≤ b) :
    make_blocks_go verses b s (fuel + 1) i =
      mkBlock ((verses.drop i).take b) ::
        (if verses.length ≤ i + b then []
         else make_blocks_go verses b s fuel (i + s)) := by
  unfold make_blocks_go
  rw [if_pos hi]
  simp only [chunk_not_empty hi hb, Bool.false_eq_true, if_false]
  congr 1
  split
  · rfl
  · cases fuel <;> rfl

theorem make_blocks_go_stop (verses : List Verso) (b s fuel i : Nat)
    (hi : ¬ i < verses.length) :
    make_blocks_go verses b s fuel i = [] := by
  cases fuel with
  | zero => rfl
  | succ fuel => unfold make_blocks_go; rw [if_neg hi]

theorem ceil_step (m s : Nat) (hs : 1 ≤ s) (hm : 1 ≤ m) :
    (m + s - 1) / s = 1 + (m - s + s - 1) / s := by
  rcases Nat.le_total s m with h | h
  · have e1 : m + s - 1 = (m - s + s - 1) + s := by omega
    rw [e1, Nat.add_div_right _ hs]
    exact Nat.add_comm _ 1
  · have e1 : m + s - 1 = (m - 1) + s := by omega
    have h3 : m - s = 0 := by omega
    rw [e1, Nat.add_div_right _ hs, h3,
      Nat.div_eq_of_lt (by omega : m - 1 < s),
      Nat.div_eq_of_lt (by omega : 0 + s - 1 < s)]

theorem make_blocks_go_length (verses : List Verso) (b s : Nat)
    (hb : 1 ≤ b) (hs : 1 ≤ s) (hsb : s ≤ b) :
    ∀ fuel i, verses.length - i < fuel → i < verses.length →
      (make_blocks_go verses b s fuel i).length =
        1 + (verses.length - i - b + s - 1) / s := by
  intro fuel
  induction fuel with
  | zero => intro i hfu hi; omega
  | succ fuel ih =>
    intro i hfu hi
    rw [make_blocks_go_succ verses b s fuel i hi hb]
    by_cases hend : verses.length ≤ i + b
    · rw [if_pos hend]
      have hm : verses.length - i - b = 0 := by omega
      have h0 : (0 + s - 1) / s = 0 := Nat.div_eq_of_lt (by omega)
      rw [hm, h0]
      rfl
    · rw [if_neg hend]
      have hi' : i + s < verses.length := by omega
      have hfu' : verses.length - (i + s) < fuel := by omega
      simp only [List.length_cons, ih (i + s) hfu' hi']
      have hm1 : 1 ≤ verses.length - i - b := by omega
      have em : verses.length - (i + s) - b = verses.length - i - b - s := by omega
      rw [em, ceil_step _ s hs hm1]
      omega

theorem make_blocks_go_get (verses : List Verso) (b s : Nat)
    (hb : 1 ≤ b) (hs : 1 ≤ s) (hsb : s ≤ b) :
    ∀ fuel i, verses.length - i < fuel → i < verses.length →
      ∀ k, k < (make_blocks_go verses b s fuel i).length →
        (make_blocks_go verses b s fuel i)[k]? =
          some (mkBlock ((verses.drop (i + k * s)).take b)) := by
  intro fuel
  induction fuel with
  | zero => intro i hfu hi; omega
  | succ fuel ih =>
    intro i hfu hi k hk
    by_cases hend : verses.length ≤ i + b
    · have hgo : make_blocks_go verses b s (fuel + 1) i =
          [mkBlock ((verses.drop i).take b)] := by
        rw [make_blocks_go_succ verses b s fuel i hi hb, if_pos hend]
      rcases k with _ | k
      · rw [hgo, Nat.zero_mul, Nat.add_zero]
        simp
      · exfalso
        rw [hgo] at hk
        simp at hk
    · have hgo : make_blocks_go verses b s (fuel + 1) i =
          mkBlock ((verses.drop i).take b) ::
            make_blocks_go verses b s fuel (i + s) := by
        rw [make_blocks_go_succ verses b s fuel i hi hb, if_neg hend]
      have hi' : i + s < verses.length := by omega
      have hfu' : verses.length - (i + s) < fuel := by omega
      rcases k with _ | k
      · rw [hgo, Nat.zero_mul, Nat.add_zero]
        simp
      · have hk' : k < (make_blocks_go verses b s fuel (i + s)).length := by
          rw [hgo] at hk
          simpa using hk
        have harr : i + (k + 1) * s = i + s + k * s := by ring
        rw [hgo, List.getElem?_cons_succ, ih (i + s) hfu' hi' k hk', harr]

/-- C2: With overlap 0 ≤ O < B, `make_blocks` walks windows of up to B
verses from index 0 with stride B − O (which is `max 1 (B − O)`), emits one
block per window including a final short one, and stops at the first window
that reaches the end of the list, so the block count is
`1 + ⌈(n − B) / (B − O)⌉` on a non-empty list and 0 on an empty one, the
k-th block covering the verses at indices `[k·(B−O), k·(B−O)+B)`; a
non-positive block size yields no blocks.  In particular 5 verses with
B = 3, O = 1 give the two blocks over verses 1–3 and 3–5 (see the
witness). -/
theorem make_blocks_claim (verses : List Verso) (B O : Int) :
    (B ≤ 0 → make_blocks verses B O = []) ∧
    (0 ≤ O → O < B →
      ((make_blocks verses B O = []) ↔ verses = []) ∧
      (verses ≠ [] →
        (make_blocks verses B O).length =
          1 + (verses.length - B.toNat + (B - O).toNat - 1) / (B - O).toNat) ∧
      (∀ k, k < (make_blocks verses B O).length →
        ((make_blocks verses B O)[k]?).map Block.versi =
          some (((verses.drop (k * (B - O).toNat)).take B.toNat).map
            Verso.urn))) := by
  constructor
  · intro hB
    unfold make_blocks
    rw [if_pos hB]
  · intro hO hOB
    have hBpos : ¬ B ≤ 0 := by omega
    have hmax : max 1 (B - O) = B - O := max_eq_right (by omega)
    have hb : 1 ≤ B.toNat := by omega
    have hs : 1 ≤ (B - O).toNat := by omega
    have hsb : (B - O).toNat ≤ B.toNat := by omega
    have hmk : make_blocks verses B O =
        make_blocks_go verses B.toNat (B - O).toNat (verses.length + 1) 0 := by
      unfold make_blocks
      rw [if_neg hBpos]
      simp only [hmax]
    rcases Nat.eq_zero_or_pos verses.length with hn | hn
    · have hv : verses = [] := List.length_eq_zero.mp hn
      subst hv
      have he : make_blocks [] B O = [] :=
        hmk.trans (make_blocks_go_stop _ _ _ _ _ (by simp))
      refine ⟨by simp [he], by simp, ?_⟩
      intro k hk
      rw [he] at hk
      simp at hk
    · have hne : verses ≠ [] := by
        intro hv
        rw [hv] at hn
        simp at hn
      have hfu : verses.length - 0 < verses.length + 1 := by omega
      have hlen := make_blocks_go_length verses B.toNat (B - O).toNat hb hs hsb
        (verses.length + 1) 0 hfu hn
      refine ⟨?_, ?_, ?_⟩
      · constructor
        · intro he
          exfalso
          have h0 : 1 + (verses.length - 0 - B.toNat + (B - O).toNat - 1) /
              (B - O).toNat = 0 := by
            rw [← hlen, ← hmk, he]
            rfl
          rw [Nat.add_comm] at h0
          exact Nat.succ_ne_zero _ h0
        · intro hv
          exact absurd hv hne
      · intro _
        rw [hmk]
        simpa using hlen
      · intro k hk
        rw [hmk] at hk ⊢
        rw [make_blocks_go_get verses B.toNat (B - O).toNat hb hs hsb
          (verses.length + 1) 0 hfu hn k hk]
        simp [mkBlock]

theorem make_blocks_claim_witness :
    (0 : Int) ≤ 1 ∧ (1 : Int) < 3 ∧
    (make_blocks sv5 3 1).length =
      1 + (sv5.length - (3 : Int).toNat + ((3 : Int) - 1).toNat - 1) /
        ((3 : Int) - 1).toNat ∧
    (make_blocks sv5 3 1).length = 2 ∧
    (make_blocks sv5 3 1).map Block.versi =
      [[(sv 1).urn, (sv 2).urn, (sv 3).urn],
       [(sv 3).urn, (sv 4).urn, (sv 5).urn]] ∧
    make_blocks sv5 0 0 = [] :=
  ⟨by norm_num, by norm_num,
   ((make_blocks_claim sv5 3 1).2 (by norm_num) (by norm_num)).2.1 (by decide),
   by decide, by decide,
   (make_blocks_claim sv5 0 0).1 (by norm_num)⟩

/-! ## C4: block markup -/

/-- C4 counterexample: the source's block markup interpolates the raw verse
text, not the entity-escaped form the claim describes: on the verse text
`a&b` the produced markup keeps the bare `&`. -/
theorem ssml_block_escape_cex :
    ssml_block [textAmp] ≠ ssmlBlockEsc [textAmp] ∧
    ssml_block [textAmp] =
      "<p><s>a&b</s>".data ++ br120 ++ "</p>".data ∧
    ssmlBlockEsc [textAmp] =
      "<p><s>a&amp;b</s>".data ++ br120 ++ "</p>".data := by
  refine ⟨by decide, by decide, by decide⟩

theorem ssml_enum_flat :
    ∀ (ts : List (List Char)) (k : Nat),
      ((List.enumFrom k ts).map
        (fun it => ("<s>".data ++ it.2 ++ "</s>".data) ++
          (if it.1 % 3 == 0 then br220 else br120))).flatten =
        ssmlBodyRaw k ts
  | [], k => by simp [ssmlBodyRaw]
  | t :: ts, k => by
    simp only [List.enumFrom_cons, List.map_cons, List.flatten_cons,
      ssml_enum_flat ts (k + 1), ssmlBodyRaw]

/-- C4 (amended): each block's markup is the concatenation, in order, of
each verse's raw (not entity-escaped) text wrapped in a single-utterance
`<s>` tag followed by a pause marker of 220ms after every third verse
counted within the block and 120ms otherwise, the whole wrapped in one
`<p>` paragraph marker. -/
theorem ssml_block_raw_spec (texts : List (List Char)) :
    ssml_block texts =
      "<p>".data ++ ssmlBodyRaw 1 texts ++ "</p>".data := by
  unfold ssml_block
  rw [ssml_enum_flat texts 1]

/-! ## C7: deriving a part short code -/

/-- C7: `short_cantica` fails (raises) exactly when the trimmed lowercase
part name does not start with `inf`, `pur` or `par`; every successful result
is one of the three fixed codes, and the three canonical part names map to
`inf` (3 letters), `purg` (4 letters) and `par` (3 letters).  All the other
modelled core operations are total functions, so no other core operation
raises. -/
theorem short_cantica_claim :
    (∀ s, short_cantica s = none ↔
      ¬ (("inf".data).isPrefixOf ((pyStrip s).map pyToLower) = true ∨
         ("pur".data).isPrefixOf ((pyStrip s).map pyToLower) = true ∨
         ("par".data).isPrefixOf ((pyStrip s).map pyToLower) = true)) ∧
    (∀ s r, short_cantica s = some r →
      r = "inf".data ∨ r = "purg".data ∨ r = "par".data) ∧
    short_cantica titleInferno = some ("inf".data) ∧
    short_cantica titlePurgatorio = some ("purg".data) ∧
    short_cantica titleParadiso = some ("par".data) ∧
    ("inf".data).length = 3 ∧ ("purg".data).length = 4 ∧
    ("par".data).length = 3 := by
  refine ⟨?_, ?_, by decide, by decide, by decide, by decide, by decide,
    by decide⟩
  · intro s
    unfold short_cantica
    by_cases h1 : ("inf".data).isPrefixOf ((pyStrip s).map pyToLower) = true <;>
      by_cases h2 : ("pur".data).isPrefixOf ((pyStrip s).map pyToLower) = true <;>
        by_cases h3 : ("par".data).isPrefixOf ((pyStrip s).map pyToLower) = true <;>
          simp [h1, h2, h3]
  · intro s r h
    simp only [short_cantica] at h
    split at h
    · exact Or.inl (Option.some.inj h).symm
    · split at h
      · exact Or.inr (Or.inl (Option.some.inj h).symm)
      · split at h
        · exact Or.inr (Or.inr (Option.some.inj h).symm)
        · exact absurd h (by simp)

theorem short_cantica_claim_witness :
    short_cantica ("Dante Alighieri".data) = none ∧
    ("inf".data = "inf".data ∨ "inf".data = "purg".data ∨
     "inf".data = "par".data) :=
  ⟨(short_cantica_claim.1 ("Dante Alighieri".data)).mpr (by decide),
   short_cantica_claim.2.1 titleInferno ("inf".data) (by decide)⟩

/-! ## C5: identifiers -/

theorem digitsAux_zero (f : Nat) : digitsAux f 0 = [] := by
  cases f <;> rfl

theorem digitsAux_small (f n : Nat) (h1 : 1 ≤ n) (h9 : n ≤ 9) (hf : n < f) :
    digitsAux f n = [digitChar n] := by
  cases f with
  | zero => omega
  | succ f =>
    cases n with
    | zero => omega
    | succ n =>
      unfold digitsAux
      rw [Nat.div_eq_of_lt (by omega), Nat.mod_eq_of_lt (by omega),
        digitsAux_zero]
      rfl

theorem digitsAux_mid (f n : Nat) (h1 : 10 ≤ n) (h9 : n ≤ 99) (hf : n < f) :
    digitsAux f n = [digitChar (n / 10), digitChar (n % 10)] := by
  cases f with
  | zero => omega
  | succ f =>
    cases n with
    | zero => omega
    | succ n =>
      unfold digitsAux
      rw [digitsAux_small f ((n + 1) / 10) (by omega) (by omega) (by omega)]
      rfl

theorem digitsAux_big (f n : Nat) (h1 : 100 ≤ n) (h9 : n ≤ 999) (hf : n < f) :
    digitsAux f n =
      [digitChar (n / 100), digitChar (n / 10 % 10), digitChar (n % 10)] := by
  cases f with
  | zero => omega
  | succ f =>
    cases n with
    | zero => omega
    | succ n =>
      unfold digitsAux
      rw [digitsAux_mid f ((n + 1) / 10) (by omega) (by omega) (by omega),
        Nat.div_div_eq_div_mul]
      rfl

theorem natRepr_pos (n : Nat) (h : 1 ≤ n) : natRepr n = digitsAux (n + 1) n := by
  unfold natRepr
  rw [if_neg]
  simp
  omega

theorem pyFormat3_eq (n : Nat) (h : n ≤ 999) :
    pyFormat 3 n =
      [digitChar (n / 100), digitChar (n / 10 % 10), digitChar (n % 10)] := by
  have e0 : digitChar 0 = '0' := by decide
  by_cases h0 : n = 0
  · subst h0
    decide
  · unfold pyFormat
    rw [natRepr_pos n (by omega)]
    by_cases h9 : n ≤ 9
    · rw [digitsAux_small (n + 1) n (by omega) h9 (by omega)]
      show '0' :: '0' :: [digitChar n] = _
      rw [Nat.div_eq_of_lt (by omega : n < 100),
        show n / 10 % 10 = 0 from by omega,
        Nat.mod_eq_of_lt (by omega : n < 10), e0]
    · by_cases h99 : n ≤ 99
      · rw [digitsAux_mid (n + 1) n (by omega) h99 (by omega)]
        show '0' :: [digitChar (n / 10), digitChar (n % 10)] = _
        rw [Nat.div_eq_of_lt (by omega : n < 100),
          show n / 10 % 10 = n / 10 from by omega, e0]
      · rw [digitsAux_big (n + 1) n (by omega) (by omega) (by omega)]
        rfl

theorem pyFormat2_eq (n : Nat) (h : n ≤ 99) :
    pyFormat 2 n = [digitChar (n / 10), digitChar (n % 10)] := by
  have e0 : digitChar 0 = '0' := by decide
  by_cases h0 : n = 0
  · subst h0
    decide
  · unfold pyFormat
    rw [natRepr_pos n (by omega)]
    by_cases h9 : n ≤ 9
    · rw [digitsAux_small (n + 1) n (by omega) h9 (by omega)]
      show '0' :: [digitChar n] = _
      rw [Nat.div_eq_of_lt (by omega : n < 10),
        Nat.mod_eq_of_lt (by omega : n < 10), e0]
    · rw [digitsAux_mid (n + 1) n (by omega) h (by omega)]
      rfl

theorem charLtB_digit :
    ∀ x, x < 10 → ∀ y, y < 10 →
      charLtB (digitChar x) (digitChar y) = decide (x < y) := by decide

theorem beq_digit :
    ∀ x, x < 10 → ∀ y, y < 10 →
      (digitChar x == digitChar y) = decide (x = y) := by decide

theorem eq_digit :
    ∀ x, x < 10 → ∀ y, y < 10 →
      ((digitChar x = digitChar y) ↔ x = y) := by decide

theorem lexLt_append_same :
    ∀ (x a b : List Char), lexLt (x ++ a) (x ++ b) = lexLt a b
  | [], a, b => rfl
  | c :: x, a, b => by
    have h1 : charLtB c c = false := by simp [charLtB]
    have h2 : (c == c) = true := by simp
    show (charLtB c c || ((c == c) && lexLt (x ++ a) (x ++ b))) = lexLt a b
    rw [h1, h2, Bool.false_or, Bool.true_and, lexLt_append_same x a b]

theorem urn_lex_iff (sc : List Char) (k n k' n' : Nat)
    (hk : k ≤ 99) (hk' : k' ≤ 99) (hn : n ≤ 999) (hn' : n' ≤ 999) :
    (lexLt (urnOf sc k n) (urnOf sc k' n') = true ↔
      (k < k' ∨ (k = k' ∧ n < n'))) := by
  unfold urnOf
  rw [List.append_assoc, List.append_assoc, lexLt_append_same]
  rw [pyFormat2_eq k hk, pyFormat2_eq k' hk', pyFormat3_eq n hn,
    pyFormat3_eq n' hn']
  have cdot1 : charLtB '.' '.' = false := by decide
  have cdot2 : ('.' == '.') = true := by decide
  have lexnil : lexLt [] [] = false := rfl
  simp only [List.cons_append, lexLt, cdot1, cdot2, Bool.false_or,
    Bool.true_and, lexnil, Bool.and_false, Bool.or_false,
    charLtB_digit (k / 10) (by omega) (k' / 10) (by omega),
    charLtB_digit (k % 10) (by omega) (k' % 10) (by omega),
    charLtB_digit (n / 100) (by omega) (n' / 100) (by omega),
    charLtB_digit (n / 10 % 10) (by omega) (n' / 10 % 10) (by omega),
    charLtB_digit (n % 10) (by omega) (n' % 10) (by omega),
    beq_digit (k / 10) (by omega) (k' / 10) (by omega),
    beq_digit (k % 10) (by omega) (k' % 10) (by omega),
    beq_digit (n / 100) (by omega) (n' / 100) (by omega),
    beq_digit (n / 10 % 10) (by omega) (n' / 10 % 10) (by omega),
    Bool.or_eq_true, Bool.and_eq_true, decide_eq_true_eq]
  omega

theorem urn_eq_iff (sc : List Char) (k n k' n' : Nat)
    (hk : k ≤ 99) (hk' : k' ≤ 99) (hn : n ≤ 999) (hn' : n' ≤ 999) :
    (urnOf sc k n = urnOf sc k' n' ↔ (k = k' ∧ n = n')) := by
  unfold urnOf
  rw [List.append_assoc, List.append_assoc, List.append_right_inj]
  rw [pyFormat2_eq k hk, pyFormat2_eq k' hk', pyFormat3_eq n hn,
    pyFormat3_eq n' hn']
  simp only [List.cons_append, List.cons.injEq, List.nil_append,
    eq_digit (k / 10) (by omega) (k' / 10) (by omega),
    eq_digit (k % 10) (by omega) (k' % 10) (by omega),
    eq_digit (n / 100) (by omega) (n' / 100) (by omega),
    eq_digit (n / 10 % 10) (by omega) (n' / 10 % 10) (by omega),
    eq_digit (n % 10) (by omega) (n' % 10) (by omega),
    true_and, and_true]
  omega

theorem urn_ne_codes (sc sc' : List Char)
    (hsc : sc = "inf".data ∨ sc = "purg".data ∨ sc = "par".data)
    (hsc' : sc' = "inf".data ∨ sc' = "purg".data ∨ sc' = "par".data)
    (hne : sc ≠ sc') (k n k' n' : Nat)
    (hk : k ≤ 99) (hk' : k' ≤ 99) (hn : n ≤ 999) (hn' : n' ≤ 999) :
    urnOf sc k n ≠ urnOf sc' k' n' := by
  unfold urnOf
  rw [pyFormat2_eq k hk, pyFormat2_eq k' hk', pyFormat3_eq n hn,
    pyFormat3_eq n' hn']
  rcases hsc with rfl | rfl | rfl <;> rcases hsc' with rfl | rfl | rfl <;>
    first
      | exact absurd rfl hne
      | (intro h; simp only [List.cons_append, List.append_assoc,
          List.cons.injEq] at h; simp at h)

/-- C5 counterexample: lexicographic sorting does not reproduce document
order across parts.  Purgatorio is the second part and Paradiso the third,
but `par.01.001 < purg.01.001` lexicographically, so the document-later
Paradiso identifier sorts strictly before the document-earlier Purgatorio
one. -/
theorem verse_urn_order_cex :
    verse_urn titlePurgatorio 1 1 = some ("purg.01.001".data) ∧
    verse_urn titleParadiso 1 1 = some ("par.01.001".data) ∧
    lexLt ("par.01.001".data) ("purg.01.001".data) = true ∧
    lexLt ("purg.01.001".data) ("par.01.001".data) = false := by
  refine ⟨by decide, by decide, by decide, by decide⟩

/-- C5 (amended): the identifier of verse n in canto c of part p is
`{code}.{c:02d}.{n:03d}` with codes inf/purg/par; identifiers are pairwise
distinct (for c ≤ 99, n ≤ 999), and within one part lexicographic order
coincides with document order (canto, then verse); across parts the
code order is inf < par < purg, which differs from the document part order
Inferno, Purgatorio, Paradiso (see the counterexample). -/
theorem verse_urn_claim :
    (∀ c sc k n, short_cantica c = some sc →
      verse_urn c k n = some (urnOf sc k n)) ∧
    (∀ c c' sc sc' k n k' n',
      short_cantica c = some sc → short_cantica c' = some sc' →
      k ≤ 99 → k' ≤ 99 → n ≤ 999 → n' ≤ 999 →
      (sc = sc' →
        (lexLt (urnOf sc k n) (urnOf sc' k' n') = true ↔
          (k < k' ∨ (k = k' ∧ n < n'))) ∧
        (urnOf sc k n = urnOf sc' k' n' ↔ (k = k' ∧ n = n'))) ∧
      (sc ≠ sc' → urnOf sc k n ≠ urnOf sc' k' n')) := by
  constructor
  · intro c sc k n h
    unfold verse_urn
    rw [h]
    rfl
  · intro c c' sc sc' k n k' n' hc hc' hk hk' hn hn'
    constructor
    · intro he
      subst he
      exact ⟨urn_lex_iff sc k n k' n' hk hk' hn hn',
        urn_eq_iff sc k n k' n' hk hk' hn hn'⟩
    · intro hne
      exact urn_ne_codes sc sc' (short_cantica_claim.2.1 c sc hc)
        (short_cantica_claim.2.1 c' sc' hc') hne k n k' n' hk hk' hn hn'

theorem verse_urn_claim_witness :
    verse_urn titleInferno 1 1 = some (urnOf ("inf".data) 1 1) ∧
    lexLt (urnOf ("inf".data) 1 1) (urnOf ("inf".data) 1 2) = true :=
  ⟨(verse_urn_claim.1 titleInferno ("inf".data) 1 1 (by decide)),
   (((verse_urn_claim.2 titleInferno titleInferno ("inf".data) ("inf".data)
      1 1 1 2 (by decide) (by decide) (by decide) (by decide) (by decide)
      (by decide)).1 rfl).1).mpr (by decide)⟩

/-! ## C10: the two pipeline variants -/

theorem dropWhile_append_all {p : Char → Bool} :
    ∀ (l₁ l₂ : List Char), (∀ a ∈ l₁, p a = true) →
      List.dropWhile p (l₁ ++ l₂) = List.dropWhile p l₂
  | [], l₂, _ => by simp
  | a :: l₁, l₂, h => by
    have ha : p a = true := h a (by simp)
    simp only [List.cons_append, List.dropWhile_cons, ha, if_true]
    exact dropWhile_append_all l₁ l₂ (fun x hx => h x (by simp [hx]))

/-- Python `rsplit('.', 1)[0]` recovers the prefix before the trailing
dot-separated field, provided that field has no dot. -/
theorem rsplitDotHead_eq (P D : List Char) (hD : ∀ c ∈ D, ¬ c = '.') :
    rsplitDotHead (P ++ '.' :: D) = P := by
  unfold rsplitDotHead
  have hrev : (P ++ '.' :: D).reverse = D.reverse ++ '.' :: P.reverse := by
    simp
  rw [hrev, dropWhile_append_all D.reverse ('.' :: P.reverse)
    (by
      intro a ha
      have : a ∈ D := by simpa using ha
      simp [hD a this])]
  simp [List.dropWhile_cons]

theorem digitChar_ne_dot : ∀ d, d < 10 → ¬ digitChar d = '.' := by decide

theorem pyFormat3_len (n : Nat) (h : n ≤ 999) : (pyFormat 3 n).length = 3 := by
  rw [pyFormat3_eq n h]
  rfl

theorem pyFormat3_no_dot (n : Nat) (h : n ≤ 999) :
    ∀ c ∈ pyFormat 3 n, ¬ c = '.' := by
  rw [pyFormat3_eq n h]
  intro c hc
  simp only [List.mem_cons, List.not_mem_nil, or_false] at hc
  rcases hc with rfl | rfl | rfl <;> exact digitChar_ne_dot _ (by omega)

/-- On a canonically-shaped urn, Python's `urn[:-3]` and
`urn.rsplit('.', 1)[0] + "."` agree. -/
theorem urn_take_eq_rsplit (u : List Char) (m : Nat) (hm : m ≤ 999)
    (P : List Char) (hu : u = P ++ '.' :: pyFormat 3 m) :
    u.take (u.length - 3) = rsplitDotHead u ++ ['.'] := by
  subst hu
  rw [rsplitDotHead_eq P (pyFormat 3 m) (pyFormat3_no_dot m hm)]
  have hlen : (P ++ '.' :: pyFormat 3 m).length = P.length + 1 + 3 := by
    simp [pyFormat3_len m hm]
  rw [hlen]
  have : P.length + 1 + 3 - 3 = P.length + 1 := by omega
  rw [this, List.take_append 1]
  rfl

theorem mkTerzina_eq (a b c : Verso) (hm : a.number ≤ 999)
    (P : List Char) (hu : a.urn = P ++ '.' :: pyFormat 3 a.number) :
    mkTerzina a b c = DP.mkTerzina a b c := by
  unfold mkTerzina DP.mkTerzina
  rw [urn_take_eq_rsplit a.urn a.number hm P hu]
  simp

theorem group_terzine_variants :
    ∀ verses : List Verso,
      (∀ v ∈ verses, v.number ≤ 999 ∧
        ∃ P, v.urn = P ++ '.' :: pyFormat 3 v.number) →
      group_terzine verses = DP.group_terzine verses
  | [], _ => rfl
  | [_], _ => rfl
  | [_, _], _ => rfl
  | a :: b :: c :: rest, H => by
    obtain ⟨hm, P, hP⟩ := H a (by simp)
    rw [show group_terzine (a :: b :: c :: rest) =
        mkTerzina a b c :: group_terzine rest from rfl,
      show DP.group_terzine (a :: b :: c :: rest) =
        DP.mkTerzina a b c :: DP.group_terzine rest from rfl,
      mkTerzina_eq a b c hm P hP,
      group_terzine_variants rest (fun v hv => H v (by simp [hv]))]

theorem dp_ssml_eq (ts : List (List Char)) :
    DP.make_ssml_for_block ts = ssml_block ts := rfl

theorem mkBlock_eq (chunk : List Verso)
    (H : ∀ v ∈ chunk, v.number ≤ 999 ∧
      ∃ P, v.urn = P ++ '.' :: pyFormat 3 v.number)
    (hne : chunk ≠ []) :
    mkBlock chunk = DP.mkBlock chunk := by
  cases chunk with
  | nil => exact absurd rfl hne
  | cons v vs =>
    obtain ⟨hm, P, hP⟩ := H v (by simp)
    unfold mkBlock DP.mkBlock
    simp only [dp_ssml_eq, List.headD_cons]
    rw [urn_take_eq_rsplit v.urn v.number hm P hP]
    simp

theorem blocks_go_variants (verses : List Verso) (b s : Nat)
    (H : ∀ v ∈ verses, v.number ≤ 999 ∧
      ∃ P, v.urn = P ++ '.' :: pyFormat 3 v.number) :
    ∀ fuel i, make_blocks_go verses b s fuel i =
      DP.build_recitation_blocks_go verses b s fuel i := by
  intro fuel
  induction fuel with
  | zero => intro i; rfl
  | succ fuel ih =>
    intro i
    unfold make_blocks_go DP.build_recitation_blocks_go
    by_cases hi : i < verses.length
    · rw [if_pos hi, if_pos hi]
      by_cases hch : ((verses.drop i).take b).isEmpty = true
      · simp only [hch, if_true]
      · simp only [hch, Bool.false_eq_true, if_false]
        have hne : (verses.drop i).take b ≠ [] := by
          intro h
          rw [h] at hch
          exact hch rfl
        have Hc : ∀ v ∈ (verses.drop i).take b, v.number ≤ 999 ∧
            ∃ P, v.urn = P ++ '.' :: pyFormat 3 v.number := by
          intro v hv
          exact H v (List.drop_subset i verses (List.take_subset b _ hv))
        rw [mkBlock_eq _ Hc hne, ih (i + s)]
    · rw [if_neg hi, if_neg hi]

/-- C10 counterexample: on a verse list whose verse numbers are all at most
999 but whose urns lack the canonical dotted shape, the two variants'
grouping functions disagree (`urn[:-3]` versus `rsplit('.', 1)[0]`), so the
claim's hypothesis (numbers ≤ 999 alone) is not enough. -/
theorem variants_differ_cex :
    group_terzine [vx 1, vx 2, vx 3] ≠ DP.group_terzine [vx 1, vx 2, vx 3] ∧
    make_blocks [vx 1, vx 2, vx 3] 3 0 ≠
      DP.build_recitation_blocks [vx 1, vx 2, vx 3] 3 0 := by
  refine ⟨by decide, by decide⟩

/-- C10 (amended): on every verse list whose records have the canonical urn
shape `prefix ++ "." ++ {number:03d}` with number at most 999 — the shape
every verse produced by either pipeline has — the two variants are
extensionally equal: `group_terzine` of `divina_pipeline.py` returns the
same records as `group_terzine` of `divina_full_pipeline.py`, and
`build_recitation_blocks` the same records as `make_blocks`, for every
block size and overlap. -/
theorem variants_equiv (verses : List Verso)
    (H : ∀ v ∈ verses, v.number ≤ 999 ∧
      ∃ P, v.urn = P ++ '.' :: pyFormat 3 v.number) :
    group_terzine verses = DP.group_terzine verses ∧
    ∀ B O : Int, make_blocks verses B O = DP.build_recitation_blocks verses B O := by
  refine ⟨group_terzine_variants verses H, ?_⟩
  intro B O
  unfold make_blocks DP.build_recitation_blocks
  by_cases hB : B ≤ 0
  · rw [if_pos hB, if_pos hB]
  · rw [if_neg hB, if_neg hB]
    exact blocks_go_variants verses _ _ H _ _

theorem variants_equiv_witness :
    group_terzine sv5 = DP.group_terzine sv5 ∧
    make_blocks sv5 3 1 = DP.build_recitation_blocks sv5 3 1 := by
  have H : ∀ v ∈ sv5, v.number ≤ 999 ∧
      ∃ P, v.urn = P ++ '.' :: pyFormat 3 v.number := by
    intro v hv
    simp only [sv5, List.mem_cons, List.not_mem_nil, or_false] at hv
    rcases hv with rfl | rfl | rfl | rfl | rfl <;>
      exact ⟨by decide, ⟨"inf.01".data, by decide⟩⟩
  exact ⟨(variants_equiv sv5 H).1, (variants_equiv sv5 H).2 3 1⟩

/-! ## C8: structural anomalies -/

theorem canto_not_cantica (line : List Char) (h : canto_header_match line = true) :
    cantica_header_match line = none := by
  cases hc : cantica_header_match line with
  | none => rfl
  | some t =>
    exfalso
    obtain ⟨X, hm⟩ := canto_pre line h
    rcases cantica_pre line t hc with ⟨Y, hm'⟩ | ⟨Y, hm'⟩ | ⟨Y, hm'⟩ <;>
      exact clash _ _ 1 hm hm' (by decide) (by decide) (by decide)

theorem make_blocks_nil (B O : Int) : make_blocks [] B O = [] := by
  unfold make_blocks
  split
  · rfl
  · exact make_blocks_go_stop _ _ _ _ _ (by simp)

theorem close_canto_none_buf (cfg : RunCfg) (e : Int) (st : PipeState)
    (h : st.canto_buf = none) : close_canto cfg e st = some st := by
  unfold close_canto
  rw [h]

theorem close_canto_some (cfg : RunCfg) (e : Int) (st : PipeState)
    (buf : CantoBuffer) (cc sc : List Char)
    (hb : st.canto_buf = some buf) (hc : st.current_cantica = some cc)
    (hs : short_cantica cc = some sc) :
    close_canto cfg e st = some
      { st with
        outputs := st.outputs ++
          [(sc ++ '_' :: pyFormat 2 buf.canto_num ++ ".json".data,
            buf.to_json ((st.canto_start_page.getD 0 : Int) + 1) (e + 1) cfg)]
        canti := st.canti ++
          [{ cantica := cc
           , canto := st.current_canto_num
           , file := sc ++ '_' :: pyFormat 2 buf.canto_num ++ ".json".data
           , counts_versi :=
              (buf.to_json ((st.canto_start_page.getD 0 : Int) + 1) (e + 1)
                cfg).counts_versi
           , counts_terzine :=
              (buf.to_json ((st.canto_start_page.getD 0 : Int) + 1) (e + 1)
                cfg).counts_terzine
           , counts_blocks :=
              (buf.to_json ((st.canto_start_page.getD 0 : Int) + 1) (e + 1)
                cfg).counts_blocks }]
        canto_buf := none
        current_canto_num := none
        canto_start_page := none } := by
  simp [close_canto, hb, hc, hs]

/-- C8: Structural anomalies never raise: a canto-boundary marker seen with
no current part set is ignored with no state change at all, and closing a
canto whose verse buffer is empty still succeeds, producing a complete
document with zero verse, stanza and block counts plus a manifest entry,
rather than being dropped or failing. -/
theorem structural_anomaly_claim :
    (∀ cfg pidx (st : PipeState) line, canto_header_match line = true →
      st.current_cantica = none → stepLine cfg pidx st line = some st) ∧
    (∀ cfg (e : Int) (st : PipeState) buf cc,
      st.canto_buf = some buf → buf.verses = [] →
      st.current_cantica = some cc →
      ∀ sc, short_cantica cc = some sc →
      ∃ st', close_canto cfg e st = some st' ∧
        ∃ fname rec, st'.outputs = st.outputs ++ [(fname, rec)] ∧
          st'.canti.length = st.canti.length + 1 ∧
          rec.counts_versi = 0 ∧ rec.counts_terzine = 0 ∧
          rec.counts_blocks = 0) := by
  constructor
  · intro cfg pidx st line hk hcc
    unfold stepLine
    rw [canto_not_cantica line hk, hk, hcc]
    simp
  · intro cfg e st buf cc hb hv hc sc hs
    refine ⟨_, close_canto_some cfg e st buf cc sc hb hc hs, _, _, rfl, by simp, ?_, ?_, ?_⟩
    · simp [CantoBuffer.to_json, hv]
    · simp [CantoBuffer.to_json, hv, group_terzine]
    · simp [CantoBuffer.to_json, hv, make_blocks_nil]

theorem structural_anomaly_claim_witness :
    stepLine cfg0 0 pipeInit ("CANTO PRIMO".data) = some pipeInit ∧
    (∃ st', close_canto cfg0 0 stB = some st' ∧
      ∃ fname rec, st'.outputs = stB.outputs ++ [(fname, rec)] ∧
        st'.canti.length = stB.canti.length + 1 ∧
        rec.counts_versi = 0 ∧ rec.counts_terzine = 0 ∧
        rec.counts_blocks = 0) :=
  ⟨structural_anomaly_claim.1 cfg0 0 pipeInit ("CANTO PRIMO".data)
     (by decide) rfl,
   structural_anomaly_claim.2 cfg0 0 stB ⟨titleInferno, 1, []⟩ titleInferno
     rfl rfl rfl ("inf".data) (by decide)⟩

/-! ## C6: numbering invariants of the scan -/

theorem range'_snoc (s n : Nat) :
    List.range' s (n + 1) = List.range' s n ++ [s + n] := by
  simpa using @List.range'_concat 1 s n

theorem alookup_aupdate_self :
    ∀ (m : List (List Char × Nat)) (k : List Char) (v : Nat),
      alookup (aupdate m k v) k = some v
  | [], k, v => by simp [aupdate, alookup]
  | e :: m, k, v => by
    by_cases he : e.1 = k
    · simp [aupdate, alookup, he]
    · simp only [aupdate, alookup, he, if_false, if_neg he]
      exact alookup_aupdate_self m k v

theorem alookup_aupdate_ne :
    ∀ (m : List (List Char × Nat)) (k : List Char) (v : Nat) (p : List Char),
      ¬ p = k → alookup (aupdate m k v) p = alookup m p
  | [], k, v, p, hp => by
    simp only [aupdate, alookup]
    rw [if_neg (fun h => hp h.symm)]
  | e :: m, k, v, p, hp => by
    by_cases he : e.1 = k
    · rw [show aupdate (e :: m) k v = (k, v) :: m from by simp [aupdate, he]]
      show (if k = p then some v else alookup m p) = alookup (e :: m) p
      rw [if_neg (fun hh => hp hh.symm)]
      show alookup m p = (if e.1 = p then some e.2 else alookup m p)
      rw [if_neg (fun hh => hp (he.symm.trans hh).symm)]
    · simp only [aupdate, alookup, he, if_false, if_neg he]
      by_cases hep : e.1 = p
      · simp [hep]
      · simp only [hep, if_false, if_neg hep]
        exact alookup_aupdate_ne m k v p hp

theorem inv_init : Inv pipeInit := by
  refine ⟨?_, ?_, ?_, ?_⟩
  · intro p
    simp [pipeInit, alookup, openedCount, closedOf]
  · intro p
    simp [pipeInit, closedOf]
  · intro b hb
    simp [pipeInit] at hb
  · intro o ho
    simp [pipeInit] at ho

theorem close_buf_none (cfg : RunCfg) (e : Int) (st st' : PipeState)
    (h : close_canto cfg e st = some st') : st'.canto_buf = none := by
  cases hb : st.canto_buf with
  | none =>
    rw [close_canto_none_buf cfg e st hb] at h
    obtain rfl := Option.some.inj h
    exact hb
  | some buf =>
    cases hc : st.current_cantica with
    | none => simp [close_canto, hb, hc] at h
    | some cc =>
      cases hs : short_cantica cc with
      | none => simp [close_canto, hb, hc, hs] at h
      | some sc =>
        rw [close_canto_some cfg e st buf cc sc hb hc hs] at h
        obtain rfl := Option.some.inj h
        rfl

/-- Closing an open canto preserves the numbering invariant, whatever the
manifest entry, page and part fields become. -/
theorem inv_close_shape (st : PipeState) (buf : CantoBuffer)
    (fname : List Char) (D : CantoData)
    (hDc : D.cantica = buf.cantica) (hDn : D.canto = buf.canto_num)
    (hDv : D.versi = buf.verses)
    (hb : st.canto_buf = some buf) (hInv : Inv st)
    (cantica' : Option (List Char)) (num' : Option Nat) (pg' : Option Nat)
    (canti' : List ManEntry) :
    Inv ⟨cantica', num', none, pg', st.last_canto,
      st.outputs ++ [(fname, D)], canti'⟩ := by
  obtain ⟨h1, h2, h3, h4⟩ := hInv
  obtain ⟨hnum, hver⟩ := h3 buf hb
  have hclosed : ∀ p,
      closedOf ⟨cantica', num', none, pg', st.last_canto,
        st.outputs ++ [(fname, D)], canti'⟩ p =
      closedOf st p ++ (if buf.cantica = p then [D] else []) := by
    intro p
    simp only [closedOf, List.map_append, List.filter_append]
    congr 1
    by_cases hp : buf.cantica = p
    · simp [List.filter, hDc, hp]
    · have hpb : (buf.cantica == p) = false := beq_eq_false_iff_ne.mpr hp
      simp [List.filter, hDc, hp, hpb]
  have hopen : ∀ p,
      openedCount ⟨cantica', num', none, pg', st.last_canto,
        st.outputs ++ [(fname, D)], canti'⟩ p = openedCount st p := by
    intro p
    simp only [openedCount, hclosed p, hb, List.length_append]
    by_cases hp : buf.cantica = p <;> simp [hp]
  refine ⟨?_, ?_, ?_, ?_⟩
  · intro p
    rw [hopen p]
    exact h1 p
  · intro p
    rw [hclosed p]
    by_cases hp : buf.cantica = p
    · have hpe : buf.cantica = p := hp
      rw [if_pos hp, List.map_append, List.length_append, h2 p]
      have hoc : openedCount st p = (closedOf st p).length + 1 := by
        simp [openedCount, hb, hpe]
      have hcan : D.canto = (closedOf st p).length + 1 := by
        rw [hDn, hnum, hpe, hoc]
      simp only [List.map_cons, List.map_nil, hcan, List.length_cons,
        List.length_nil]
      rw [range'_snoc]
      simp [Nat.add_comm]
    · rw [if_neg hp]
      simp only [List.append_nil, List.length_append, List.length_nil,
        Nat.add_zero]
      exact h2 p
  · intro b hb'
    simp at hb'
  · intro o ho
    rcases List.mem_append.mp ho with ho | ho
    · exact h4 o ho
    · have he : o = (fname, D) := by simpa using ho
      subst he
      show D.versi.map Verso.number = _
      rw [hDv]
      exact hver

theorem close_inv (cfg : RunCfg) (e : Int) (st st' : PipeState)
    (h : close_canto cfg e st = some st') (hInv : Inv st) : Inv st' := by
  cases hb : st.canto_buf with
  | none =>
    rw [close_canto_none_buf cfg e st hb] at h
    obtain rfl := Option.some.inj h
    exact hInv
  | some buf =>
    cases hc : st.current_cantica with
    | none => simp [close_canto, hb, hc] at h
    | some cc =>
      cases hs : short_cantica cc with
      | none => simp [close_canto, hb, hc, hs] at h
      | some sc =>
        rw [close_canto_some cfg e st buf cc sc hb hc hs] at h
        obtain rfl := Option.some.inj h
        exact inv_close_shape st buf _ _ rfl rfl rfl hb hInv _ _ _ _

/-- Opening a new canto preserves the numbering invariant: the state
produced by the canto-heading branch of `stepLine` after a close, where `N`
is the incremented per-part counter value. -/
theorem inv_open_shape (st : PipeState) (cc : List Char) (pidx N : Nat)
    (hb : st.canto_buf = none) (hInv : Inv st)
    (hN : N = openedCount st cc + 1) :
    Inv { st with
      last_canto := aupdate st.last_canto cc N
      current_canto_num := some N
      canto_buf := some ⟨cc, N, []⟩
      canto_start_page := some pidx } := by
  obtain ⟨h1, h2, h3, h4⟩ := hInv
  have hopeq : ∀ p, openedCount st p = (closedOf st p).length := by
    intro p
    simp [openedCount, hb]
  have hop1 : openedCount { st with
      last_canto := aupdate st.last_canto cc N
      current_canto_num := some N
      canto_buf := some ⟨cc, N, []⟩
      canto_start_page := some pidx } cc = N := by
    show (closedOf st cc).length + (if (cc == cc) = true then 1 else 0) = N
    simp only [beq_self_eq_true, if_true]
    rw [← hopeq cc, ← hN]
  refine ⟨?_, ?_, ?_, ?_⟩
  · intro p
    by_cases hp : p = cc
    · subst hp
      show alookup (aupdate st.last_canto p N) p = _
      rw [alookup_aupdate_self, hop1]
      rw [if_neg (by omega : ¬ N = 0)]
    · show alookup (aupdate st.last_canto cc N) p = _
      rw [alookup_aupdate_ne _ _ _ _ hp, h1 p]
      have hpb : (cc == p) = false :=
        beq_eq_false_iff_ne.mpr (fun hh => hp hh.symm)
      have hop2 : openedCount { st with
          last_canto := aupdate st.last_canto cc N
          current_canto_num := some N
          canto_buf := some ⟨cc, N, []⟩
          canto_start_page := some pidx } p = openedCount st p := by
        show (closedOf st p).length + (if (cc == p) = true then 1 else 0) = _
        rw [hpb]
        simp [hopeq p]
      rw [hop2]
  · intro p
    exact h2 p
  · intro b hb'
    have hbe : b = ⟨cc, N, []⟩ := by simpa using hb'.symm
    subst hbe
    exact ⟨hop1.symm, by simp⟩
  · intro o ho
    exact h4 o ho

/-- Appending one verse preserves the numbering invariant. -/
theorem inv_add_shape (st : PipeState) (buf : CantoBuffer) (v : Verso)
    (hb : st.canto_buf = some buf) (hInv : Inv st)
    (hv : v.number = buf.verses.length + 1) :
    Inv { st with
      canto_buf := some { buf with verses := buf.verses ++ [v] } } := by
  obtain ⟨h1, h2, h3, h4⟩ := hInv
  obtain ⟨hnum, hver⟩ := h3 buf hb
  have hop : ∀ p, openedCount { st with
      canto_buf := some { buf with verses := buf.verses ++ [v] } } p =
      openedCount st p := by
    intro p
    show (closedOf st p).length + (if (buf.cantica == p) = true then 1 else 0)
      = _
    simp [openedCount, hb]
  refine ⟨?_, ?_, ?_, ?_⟩
  · intro p
    rw [hop p]
    exact h1 p
  · intro p
    exact h2 p
  · intro b hb'
    have hbe : b = { buf with verses := buf.verses ++ [v] } := by
      simpa using hb'.symm
    subst hbe
    constructor
    · show buf.canto_num = _
      rw [hop buf.cantica, hnum]
    · show (buf.verses ++ [v]).map Verso.number =
        List.range' 1 (buf.verses ++ [v]).length
      rw [List.map_append, hver, List.length_append]
      show List.range' 1 buf.verses.length ++ [v.number] = _
      rw [hv]
      show _ = List.range' 1 (buf.verses.length + 1)
      rw [range'_snoc]
      simp [Nat.add_comm]
  · intro o ho
    exact h4 o ho

theorem inv_set_cantica (st : PipeState) (x : Option (List Char))
    (h : Inv st) : Inv { st with current_cantica := x } := h

/-- One scan step preserves the numbering invariant. -/
theorem stepLine_inv (cfg : RunCfg) (pidx : Nat) (st : PipeState)
    (line : List Char) (st' : PipeState)
    (h : stepLine cfg pidx st line = some st') (hInv : Inv st) : Inv st' := by
  unfold stepLine at h
  cases hca : cantica_header_match line with
  | some t =>
    rw [hca] at h
    cases hcl : close_canto cfg ((pidx : Int) - 1) st with
    | none => rw [hcl] at h; cases h
    | some st1 =>
      rw [hcl] at h
      obtain rfl := Option.some.inj h
      exact inv_set_cantica st1 (some t) (close_inv _ _ _ _ hcl hInv)
  | none =>
    rw [hca] at h
    by_cases hk : canto_header_match line = true
    · rw [if_pos hk] at h
      cases hcc : st.current_cantica with
      | none =>
        rw [hcc] at h
        obtain rfl := Option.some.inj h
        exact hInv
      | some cc =>
        rw [hcc] at h
        cases hcl : close_canto cfg ((pidx : Int) - 1) st with
        | none => rw [hcl] at h; cases h
        | some st1 =>
          rw [hcl] at h
          obtain rfl := Option.some.inj h
          have hInv1 := close_inv _ _ _ _ hcl hInv
          have hb1 := close_buf_none _ _ _ _ hcl
          refine inv_open_shape st1 cc pidx _ hb1 hInv1 ?_
          rw [hInv1.1 cc]
          by_cases h0 : openedCount st1 cc = 0
          · rw [if_pos h0, h0]
          · rw [if_neg h0]
    · rw [if_neg hk] at h
      cases hbf : st.canto_buf with
      | none =>
        rw [hbf] at h
        obtain rfl := Option.some.inj h
        exact hInv
      | some buf =>
        rw [hbf] at h
        have h' : (if is_probable_verse line = true then
            (buf.add_verse line).map
              (fun b => { st with canto_buf := some b })
          else some st) = some st' := h
        by_cases hv : is_probable_verse line = true
        · rw [if_pos hv] at h'
          cases hu : verse_urn buf.cantica buf.canto_num
              (buf.verses.length + 1) with
          | none =>
            rw [show buf.add_verse line = none from by
              simp [CantoBuffer.add_verse, hu]] at h'
            exact Option.noConfusion h'
          | some u =>
            rw [show buf.add_verse line = some
                { buf with verses := buf.verses ++
                  [{ urn := u
                   , number := buf.verses.length + 1
                   , text_original := line
                   , last_word := last_word line
                   , rhyme_letter :=
                      rhymeLetterAt ((buf.verses.length + 1 - 1) % 3)
                   , ssml := ssml_for_verso line }] } from by
              simp [CantoBuffer.add_verse, hu]] at h'
            have h'' : some ({ st with canto_buf := some ({ buf with verses := buf.verses ++ [{ urn := u, number := buf.verses.length + 1, text_original := line, last_word := last_word line, rhyme_letter := rhymeLetterAt ((buf.verses.length + 1 - 1) % 3), ssml := ssml_for_verso line }] }) }) = some st' := h'
            obtain rfl := Option.some.inj h''
            exact inv_add_shape st buf _ hbf hInv rfl
        · rw [if_neg hv] at h'
          obtain rfl := Option.some.inj h'
          exact hInv

theorem stepPage_inv (cfg : RunCfg) (pidx : Nat) :
    ∀ (lines : List (List Char)) (st st' : PipeState),
      stepPage cfg pidx st lines = some st' → Inv st → Inv st'
  | [], st, st', h, hi => by
    obtain rfl := Option.some.inj h
    exact hi
  | l :: ls, st, st', h, hi => by
    unfold stepPage at h
    revert h
    cases hs : stepLine cfg pidx st l with
    | none => intro h; cases h
    | some st1 =>
      intro h
      exact stepPage_inv cfg pidx ls st1 st' h
        (stepLine_inv cfg pidx st l st1 hs hi)

theorem stepPages_inv (cfg : RunCfg) :
    ∀ (pages : List (List (List Char))) (pidx : Nat) (st st' : PipeState),
      stepPages cfg pidx st pages = some st' → Inv st → Inv st'
  | [], _, st, st', h, hi => by
    obtain rfl := Option.some.inj h
    exact hi
  | pg :: rest, pidx, st, st', h, hi => by
    unfold stepPages at h
    revert h
    cases hs : stepPage cfg pidx st pg with
    | none => intro h; cases h
    | some st1 =>
      intro h
      exact stepPages_inv cfg rest (pidx + 1) st1 st' h
        (stepPage_inv cfg pidx pg st st1 hs hi)

/-- C6: In every run of the segmenter, the verse numbers of each written
canto document are contiguous from 1 in append order, and within each part
the canto numbers of the documents, in writing (= encounter) order, are
contiguous from 1 — each part keeps its own counter across part changes,
and the numbers come from counting boundary markers, not from the heading
text, which the scan never parses into a number. -/
theorem run_pipeline_numbering (cfg : RunCfg)
    (pages : List (List (List Char))) (st : PipeState)
    (h : run_pipeline cfg pages = some st) :
    (∀ o ∈ st.outputs, o.2.versi.map Verso.number =
      List.range' 1 o.2.versi.length) ∧
    (∀ p, (closedOf st p).map CantoData.canto =
      List.range' 1 (closedOf st p).length) := by
  unfold run_pipeline at h
  revert h
  cases hp : stepPages cfg 0 pipeInit pages with
  | none => intro h; cases h
  | some st1 =>
    intro h
    have hi1 := stepPages_inv cfg pages 0 pipeInit st1 hp inv_init
    have hi := close_inv _ _ _ _ h hi1
    exact ⟨hi.2.2.2, hi.2.1⟩

theorem run_pipeline_numbering_witness :
    (∀ o ∈ stC.outputs, o.2.versi.map Verso.number =
      List.range' 1 o.2.versi.length) ∧
    (∀ p, (closedOf stC p).map CantoData.canto =
      List.range' 1 (closedOf stC p).length) :=
  run_pipeline_numbering cfg0 pagesC stC (by decide)

end Divina